import Mathlib

/-!
Shallow embedding of the `zksnark-safety-verificator` verification engine
(`src/verification`): the R1CS constraint-algebra view used by the tool, the
verification-graph construction, the polynomial-system optimiser and emitter,
the CAS driver line protocol, and the symbol-table loader.

Rust collections are embedded as follows: `HashMap`/`BTreeMap` become
association lists (`List (Nat × _)`) with overwrite-on-insert, `BTreeSet` and
`HashSet` become ascending duplicate-free lists (`List Nat`) so that every
definition evaluates, big integers become `Int`, and strings become `String`
or `List Char`.  The `circom_algebra` crate is a component of the system
whose sources are not under `src/`; its operations are modelled from the
specification and are marked `Modelled from the spec:` below.
-/

namespace VerifSpec

/-- A linear term of an R1CS constraint: Rust `HashMap<usize, BigInt>`,
embedded as an association list from signal index to integer coefficient. -/
abbrev LinMap : Type := List (Nat × Int)

/-- Association-list lookup with the first (for well-formed maps, only)
matching key winning, mirroring `HashMap::get` / `BTreeMap::get`. -/
def alookup {α : Type} : Nat → List (Nat × α) → Option α
  | _, [] => none
  | k, p :: rest => if p.1 = k then some p.2 else alookup k rest

/-- Map insert with overwrite, mirroring `BTreeMap::insert` /
`HashMap::insert` as observed through lookups. -/
def mapInsert {α : Type} (m : List (Nat × α)) (k : Nat) (v : α) :
    List (Nat × α) :=
  (k, v) :: m.filter (fun p => p.1 ≠ k)

/-- Ordered-set insert: `BTreeSet<usize>::insert`, keeping the list
ascending and duplicate-free. -/
def setInsert (s : Nat) : List Nat → List Nat
  | [] => [s]
  | x :: xs =>
    if s < x then s :: x :: xs
    else if s = x then x :: xs
    else x :: setInsert s xs

/-- Collect a list of keys into an ordered set (iterating a Rust set-building
loop). -/
def setOfList (l : List Nat) : List Nat :=
  l.foldl (fun acc s => setInsert s acc) []

/-- Set union by repeated insertion: `BTreeSet::append` as observed through
membership. -/
def setUnion (a b : List Nat) : List Nat :=
  b.foldl (fun acc s => setInsert s acc) a

/-- Set removal: `BTreeSet::remove`. -/
def setErase (l : List Nat) (s : Nat) : List Nat :=
  l.filter (fun x => x ≠ s)

lemma mem_setInsert (x s : Nat) (l : List Nat) :
    x ∈ setInsert s l ↔ x = s ∨ x ∈ l := by
  induction l with
  | nil => simp [setInsert]
  | cons y ys ih =>
    simp only [setInsert]
    split
    · simp
    · split
      · rename_i hlt heq
        subst heq
        simp only [List.mem_cons]
        constructor
        · exact fun h => Or.inr h
        · rintro (rfl | h)
          · exact Or.inl rfl
          · exact h
      · simp [ih]
        tauto

lemma mem_foldl_setInsert (x : Nat) (l acc : List Nat) :
    x ∈ l.foldl (fun acc s => setInsert s acc) acc ↔ x ∈ acc ∨ x ∈ l := by
  induction l generalizing acc with
  | nil => simp
  | cons y ys ih =>
    simp only [List.foldl_cons, ih, mem_setInsert, List.mem_cons]
    tauto

lemma mem_setOfList (x : Nat) (l : List Nat) :
    x ∈ setOfList l ↔ x ∈ l := by
  simp [setOfList, mem_foldl_setInsert]

lemma mem_setUnion (x : Nat) (a b : List Nat) :
    x ∈ setUnion a b ↔ x ∈ a ∨ x ∈ b := by
  simp [setUnion, mem_foldl_setInsert]

/-- Modelled from the spec: the reserved sentinel signal index encoding the
constant term of a linear combination (`circuit_constraints.json` uses the
key `0`; `Constraint::constant_coefficient` lives in the `circom_algebra`
crate, outside `src/`). -/
def constantCoefficient : Nat := 0

/-- An R1CS constraint `A·B + C ≡ 0 (mod p)`; the triple of linear terms of
`circom_algebra::algebra::Constraint<usize>`. -/
structure Constraint where
  a : LinMap
  b : LinMap
  c : LinMap

/-- Modelled from the spec: `signals(c)` — the set of signal indices
appearing in A, B or C, with the constant-term sentinel excluded
(`Constraint::take_signals` / `take_cloned_signals_ordered`, the latter
iterated in ascending order). -/
def Constraint.signalsSet (cst : Constraint) : List Nat :=
  setOfList (((cst.a ++ cst.b ++ cst.c).map Prod.fst).filter
    (fun k => k ≠ constantCoefficient))

/-- Modelled from the spec: `is_empty(c)` recognises the structural `0 = 0`
constraint (all three linear terms empty). -/
def Constraint.isEmptyC (cst : Constraint) : Bool :=
  cst.a.isEmpty && cst.b.isEmpty && cst.c.isEmpty

/-- Modelled from the spec: `has_constant_coefficient(c)` — some linear term
of the constraint carries the constant-term sentinel key. -/
def Constraint.hasConstantCoefficient (cst : Constraint) : Bool :=
  ((cst.a ++ cst.b ++ cst.c).map Prod.fst).contains constantCoefficient

/-- Modelled from the spec: "A linear constraint has `A` or `B` empty"
(`Constraint::is_linear`). -/
def Constraint.isLinear (cst : Constraint) : Bool :=
  cst.a.isEmpty || cst.b.isEmpty

/-- Coefficient of a signal in the `C` linear term, as read by
`substituted_constraint.c().get(signal)`. -/
def Constraint.coefficientInC (cst : Constraint) (s : Nat) : Option Int :=
  alookup s cst.c

/-- Constraints are stored normalised (`Constraint::fix_constraint` has been
applied, as the sources assume): whenever one of A and B is empty the whole
linear content has been moved into C, so A and B are both empty.  Theorems
about code that unwraps a C-coefficient assume this form. -/
def Constraint.fixedForm (cst : Constraint) : Prop :=
  (cst.a = [] ∨ cst.b = []) → (cst.a = [] ∧ cst.b = [])

lemma mem_signalsSet (cst : Constraint) (s : Nat) :
    s ∈ cst.signalsSet ↔
      s ≠ constantCoefficient ∧
        s ∈ ((cst.a ++ cst.b ++ cst.c).map Prod.fst) := by
  simp only [Constraint.signalsSet, mem_setOfList, List.mem_filter,
    decide_eq_true_eq]
  tauto

/-! ### `is_constraint_binary_restriction`
(src/verification/src/polynomial_system_fixer.rs, lines 241-290) -/

/-- The tail of `is_constraint_binary_restriction` once the single-signal and
two-signal sides have been chosen: the `?`-propagating lookups of the Rust
source, as an `Option` bind chain. -/
def sideCheck (single_signal double_signals : LinMap) (s : Nat) (p : Int) :
    Option Nat :=
  (alookup s single_signal).bind (fun c1 =>
    if c1 ≠ 1 then none
    else (alookup s double_signals).bind (fun c2 =>
      if c2 ≠ 1 then none
      else (alookup constantCoefficient double_signals).bind (fun k =>
        if p - k = 1 then some s else none)))

/-- Embedding of `is_constraint_binary_restriction`: returns the signal a
constraint forces to be binary, if the constraint has that shape. -/
def is_constraint_binary_restriction (cst : Constraint) (field_prime : Int) :
    Option Nat :=
  if cst.c ≠ [] then none
  else if !cst.hasConstantCoefficient then none
  else
    match cst.signalsSet with
    | [s] =>
      if cst.a.length = 1 ∧ cst.b.length = 2 then
        sideCheck cst.a cst.b s field_prime
      else if cst.b.length = 1 ∧ cst.a.length = 2 then
        sideCheck cst.b cst.a s field_prime
      else none
    | _ => none

/-- The claim's structural description of a binary restriction `x·(x−1) = 0`:
one side of the product holds the signal with coefficient 1 plus a constant
term whose field negation equals 1. -/
def DoubleSide (m : LinMap) (s : Nat) (p : Int) : Prop :=
  ∃ k, (m = [(s, 1), (constantCoefficient, k)] ∨
        m = [(constantCoefficient, k), (s, 1)]) ∧ p - k = 1

/-- The claim's structural description of `x·(x−1) = 0`: `C` empty, exactly
one distinct participating signal, one of A and B holding only that signal
with coefficient 1, the other being a `DoubleSide` for it. -/
def BinaryRestrictionShape (cst : Constraint) (p : Int) (s : Nat) : Prop :=
  cst.c = [] ∧ cst.signalsSet = [s] ∧
    ((cst.a = [(s, 1)] ∧ DoubleSide cst.b s p) ∨
     (cst.b = [(s, 1)] ∧ DoubleSide cst.a s p))

lemma alookup_cons {α : Type} (k : Nat) (w : α) (rest : List (Nat × α))
    (s : Nat) :
    alookup s ((k, w) :: rest) = if k = s then some w else alookup s rest :=
  rfl

lemma alookup_nil {α : Type} (s : Nat) :
    alookup s ([] : List (Nat × α)) = none :=
  rfl

lemma sideCheck_eq_some_iff (single double : LinMap) (s₀ : Nat) (p : Int)
    (s : Nat) :
    sideCheck single double s₀ p = some s ↔
      s = s₀ ∧ alookup s₀ single = some 1 ∧ alookup s₀ double = some 1 ∧
        ∃ k, alookup constantCoefficient double = some k ∧ p - k = 1 := by
  unfold sideCheck
  cases h1 : alookup s₀ single with
  | none => simp [h1]
  | some c1 =>
    by_cases hc1 : c1 = 1
    · subst hc1
      cases h2 : alookup s₀ double with
      | none => simp [h2]
      | some c2 =>
        by_cases hc2 : c2 = 1
        · subst hc2
          cases h3 : alookup constantCoefficient double with
          | none => simp [h3]
          | some k =>
            by_cases hpk : p - k = 1
            · simp [hpk, eq_comm]
            · simp [hpk]
        · simp [hc2]
    · simp [hc1]

lemma single_from_lookup (lst : LinMap) (s : Nat)
    (hlen : lst.length = 1) (hl : alookup s lst = some 1) :
    lst = [(s, 1)] := by
  obtain ⟨⟨k, w⟩, hx⟩ := List.length_eq_one.mp hlen
  subst hx
  rw [alookup_cons] at hl
  split at hl
  · rename_i hk
    cases hl
    rw [hk]
  · cases hl

lemma double_from_lookups (lst : LinMap) (s : Nat) (k : Int)
    (hlen : lst.length = 2) (hs0 : s ≠ 0)
    (h1 : alookup s lst = some 1)
    (h2 : alookup constantCoefficient lst = some k) :
    lst = [(s, 1), (constantCoefficient, k)] ∨
      lst = [(constantCoefficient, k), (s, 1)] := by
  obtain ⟨⟨k1, w1⟩, ⟨k2, w2⟩, hx⟩ := List.length_eq_two.mp hlen
  subst hx
  rw [alookup_cons, alookup_cons, alookup_nil] at h1 h2
  by_cases hk1 : k1 = s
  · subst hk1
    rw [if_pos rfl] at h1
    cases h1
    rw [if_neg (by simpa [constantCoefficient] using hs0)] at h2
    split at h2
    · rename_i hk2
      cases h2
      left
      rw [hk2]
    · cases h2
  · rw [if_neg hk1] at h1
    split at h1
    · rename_i hk2
      cases h1
      subst hk2
      split at h2
      · rename_i hk1c
        cases h2
        right
        rw [hk1c]
      · rw [if_neg (by simpa [constantCoefficient] using hs0)] at h2
        cases h2
    · cases h1

/-- C3: `is_constraint_binary_restriction` returns `some s` if and only if
the constraint has the shape `x·(x−1) = 0` for the single signal `s`: its C
part is empty, exactly one distinct signal participates, one of A and B
contains only that signal with coefficient 1, and the other contains the
signal with coefficient 1 plus a constant term whose field negation equals
1 — independent of which of A and B plays which role. -/
theorem claim_C3 (cst : Constraint) (p : Int) (s : Nat) :
    is_constraint_binary_restriction cst p = some s ↔
      BinaryRestrictionShape cst p s := by
  constructor
  · intro hres
    simp only [is_constraint_binary_restriction] at hres
    split at hres
    · exact absurd hres (by simp)
    · split at hres
      · exact absurd hres (by simp)
      · rename_i hc hcc
        rw [not_not] at hc
        revert hres
        split
        · rename_i s₀ hsl
          have hs0 : s₀ ≠ 0 := by
            have hm : s₀ ∈ cst.signalsSet := by rw [hsl]; simp
            simpa [constantCoefficient] using ((mem_signalsSet cst s₀).mp hm).1
          intro hres
          by_cases hab : cst.a.length = 1 ∧ cst.b.length = 2
          · rw [if_pos hab] at hres
            obtain ⟨heq, hsingle, hdouble, k, hk, hpk⟩ :=
              (sideCheck_eq_some_iff _ _ _ _ _).mp hres
            subst heq
            refine ⟨hc, hsl, Or.inl ⟨single_from_lookup _ _ hab.1 hsingle,
              k, ?_, hpk⟩⟩
            exact double_from_lookups _ _ _ hab.2 hs0 hdouble hk
          · rw [if_neg hab] at hres
            by_cases hba : cst.b.length = 1 ∧ cst.a.length = 2
            · rw [if_pos hba] at hres
              obtain ⟨heq, hsingle, hdouble, k, hk, hpk⟩ :=
                (sideCheck_eq_some_iff _ _ _ _ _).mp hres
              subst heq
              refine ⟨hc, hsl, Or.inr ⟨single_from_lookup _ _ hba.1 hsingle,
                k, ?_, hpk⟩⟩
              exact double_from_lookups _ _ _ hba.2 hs0 hdouble hk
            · rw [if_neg hba] at hres
              cases hres
        · intro hres
          cases hres
  · rintro ⟨hc, hsl, hshape⟩
    have hs0 : s ≠ 0 := by
      have hm : s ∈ cst.signalsSet := by rw [hsl]; simp
      simpa [constantCoefficient] using ((mem_signalsSet cst s).mp hm).1
    have hcc : cst.hasConstantCoefficient = true := by
      rcases hshape with ⟨_, k, hd, _⟩ | ⟨_, k, hd, _⟩ <;>
        rcases hd with hd | hd <;>
          simp [Constraint.hasConstantCoefficient, hd, constantCoefficient]
    rcases hshape with ⟨ha, k, hb, hpk⟩ | ⟨hb, k, ha, hpk⟩
    · have hlen : cst.a.length = 1 ∧ cst.b.length = 2 := by
        rcases hb with hb | hb <;> simp [ha, hb]
      rw [is_constraint_binary_restriction, if_neg (by simp [hc]), hcc]
      simp only [Bool.not_true, Bool.false_eq_true, if_false, hsl]
      rw [if_pos hlen]
      refine (sideCheck_eq_some_iff _ _ _ _ _).mpr ⟨rfl, ?_, ?_, k, ?_, hpk⟩
      · simp [ha, alookup_cons]
      · rcases hb with hb | hb <;>
          simp [hb, alookup_cons, hs0, Ne.symm hs0, constantCoefficient]
      · rcases hb with hb | hb <;>
          simp [hb, alookup_cons, alookup_nil, hs0, Ne.symm hs0,
            constantCoefficient]
    · have hlen1 : ¬ (cst.a.length = 1 ∧ cst.b.length = 2) := by
        rcases ha with ha | ha <;> simp [hb, ha]
      have hlen2 : cst.b.length = 1 ∧ cst.a.length = 2 := by
        rcases ha with ha | ha <;> simp [hb, ha]
      rw [is_constraint_binary_restriction, if_neg (by simp [hc]), hcc]
      simp only [Bool.not_true, Bool.false_eq_true, if_false, hsl]
      rw [if_neg hlen1, if_pos hlen2]
      refine (sideCheck_eq_some_iff _ _ _ _ _).mpr ⟨rfl, ?_, ?_, k, ?_, hpk⟩
      · simp [hb, alookup_cons]
      · rcases ha with ha | ha <;>
          simp [ha, alookup_cons, hs0, Ne.symm hs0, constantCoefficient]
      · rcases ha with ha | ha <;>
          simp [ha, alookup_cons, alookup_nil, hs0, Ne.symm hs0,
            constantCoefficient]

/-! ### Input data model
(src/verification/src/input_data.rs; fields read by the verification code) -/

/-- Command-line options (src/verification/src/cli.rs, `Options`). -/
structure Options where
  groebner_cocoa_timeout_seconds : Nat
  max_vars_prohibition_polynomial_before_timeout : Nat
  generate_svg_diagrams : Bool
  generate_only_last_propagation_svg : Bool
deriving DecidableEq, Repr

/-- The defaults of `Options::default` (cli.rs, lines 23-32). -/
def Options.default : Options :=
  { groebner_cocoa_timeout_seconds := 5
    max_vars_prohibition_polynomial_before_timeout := 75
    generate_svg_diagrams := false
    generate_only_last_propagation_svg := false }

/-- The fields of a `TreeConstraints` subtree that `VerificationGraph::new`
reads from a direct subcomponent (the recursive remainder of the Rust struct
is not consulted by the embedded functions). -/
structure SubCmpData where
  node_id : Nat
  number_inputs : Nat
  number_outputs : Nat
  initial_signal : Nat
deriving DecidableEq, Repr

/-- The fields of `TreeConstraints` that the embedded functions read for one
frame. -/
structure TreeConstraintsFrame where
  no_constraints : Nat
  initial_constraint : Nat
  number_inputs : Nat
  number_outputs : Nat
  number_signals : Nat
  initial_signal : Nat
  are_double_arrow : List (Nat × Nat)
  subcomponents : List SubCmpData
deriving DecidableEq, Repr

/-- `InputDataContextView`: the read-only context the verification functions
receive.  The witness, symbol table and constraint storage are embedded as
total functions; the Rust code panics (`unwrap`) on a missing entry, so the
theorems only ever apply them to present keys. -/
structure InputDataContextView where
  witness : Nat → Int
  signal_name_map : Nat → String
  tree_constraints : TreeConstraintsFrame
  field : Int
  constraint_storage : Nat → Constraint
  options : Options

/-! ### Polynomial-system optimiser
(src/verification/src/polynomial_system_fixer.rs, lines 292-326, and
src/verification/src/verifier.rs, lines 16-23) -/

/-- Tag attached to each signal to fix (`SignalToFixData`). -/
structure SignalToFixData where
  is_boolean : Bool
deriving DecidableEq, Repr

/-- A proof obligation as produced by the extractor
(`PolynomialSystemFixedSignal`); `signals_to_fix` is a `BTreeSet`, embedded
ascending.  The template/component names are the ones the fixer reads off
the obligation when reporting. -/
structure PolynomialSystemFixedSignal where
  constraints : List Constraint
  signals_to_fix : List Nat
  template_name : String
  component_name : String

/-- An optimised obligation (`OptimizedPolynomialSystemFixedSignal`);
`signals_to_fix` is a `BTreeMap` iterated in ascending key order. -/
structure OptimizedPolynomialSystemFixedSignal where
  constraints : List Constraint
  signals_to_fix : List (Nat × SignalToFixData)
  template_name : String
  component_name : String

/-- Embedding of `optimize_pol_system`: collect binary signals, drop `0 = 0`
constraints, tag every signal to fix. -/
def optimize_pol_system (pol_system : PolynomialSystemFixedSignal)
    (context : InputDataContextView) : OptimizedPolynomialSystemFixedSignal :=
  let binary_signals : List Nat := pol_system.constraints.foldl
    (fun acc cst =>
      match is_constraint_binary_restriction cst context.field with
      | some bin_signal => setInsert bin_signal acc
      | none => acc) []
  { constraints := pol_system.constraints.filter (fun x => !x.isEmptyC)
    signals_to_fix := pol_system.signals_to_fix.map
      (fun idx => (idx, ⟨binary_signals.contains idx⟩))
    template_name := pol_system.template_name
    component_name := pol_system.component_name }

lemma mem_binary_fold (x : Nat) (l : List Constraint) (p : Int)
    (acc : List Nat) :
    x ∈ l.foldl (fun acc cst =>
        match is_constraint_binary_restriction cst p with
        | some bin_signal => setInsert bin_signal acc
        | none => acc) acc ↔
      x ∈ acc ∨ ∃ cst ∈ l, is_constraint_binary_restriction cst p = some x := by
  induction l generalizing acc with
  | nil => simp
  | cons cst rest ih =>
    simp only [List.foldl_cons]
    cases hr : is_constraint_binary_restriction cst p with
    | none =>
      rw [ih]
      simp only [List.mem_cons]
      constructor
      · rintro (h | ⟨c2, hc2, he⟩)
        · exact Or.inl h
        · exact Or.inr ⟨c2, Or.inr hc2, he⟩
      · rintro (h | ⟨c2, rfl | hc2, he⟩)
        · exact Or.inl h
        · rw [hr] at he
          cases he
        · exact Or.inr ⟨c2, hc2, he⟩
    | some b =>
      rw [ih]
      simp only [mem_setInsert, List.mem_cons]
      constructor
      · rintro ((rfl | h) | ⟨c2, hc2, he⟩)
        · exact Or.inr ⟨cst, Or.inl rfl, hr⟩
        · exact Or.inl h
        · exact Or.inr ⟨c2, Or.inr hc2, he⟩
      · rintro (h | ⟨c2, rfl | hc2, he⟩)
        · exact Or.inl (Or.inr h)
        · rw [hr] at he
          cases he
          exact Or.inl (Or.inl rfl)
        · exact Or.inr ⟨c2, hc2, he⟩

/-- C7: `optimize_pol_system` keeps exactly the constraints that are not
structurally `0 = 0`, in their original order, preserves the signal keys of
`signals_to_fix`, and tags a signal `is_boolean` exactly when some
constraint of the input system is a binary restriction on it. -/
theorem claim_C7 (context : InputDataContextView)
    (pol_system : PolynomialSystemFixedSignal) :
    (optimize_pol_system pol_system context).constraints =
        pol_system.constraints.filter (fun x => !x.isEmptyC) ∧
      (optimize_pol_system pol_system context).signals_to_fix.map Prod.fst =
        pol_system.signals_to_fix ∧
      (∀ s d, (s, d) ∈ (optimize_pol_system pol_system context).signals_to_fix ↔
        s ∈ pol_system.signals_to_fix ∧
          (d.is_boolean = true ↔ ∃ cst ∈ pol_system.constraints,
            is_constraint_binary_restriction cst context.field = some s)) := by
  have hKey : ∀ x, (pol_system.constraints.foldl
      (fun acc cst =>
        match is_constraint_binary_restriction cst context.field with
        | some bin_signal => setInsert bin_signal acc
        | none => acc) []).contains x = true ↔
      ∃ cst ∈ pol_system.constraints,
        is_constraint_binary_restriction cst context.field = some x := by
    intro x
    rw [List.elem_iff, mem_binary_fold]
    simp
  refine ⟨rfl, ?_, ?_⟩
  · simp only [optimize_pol_system]
    induction pol_system.signals_to_fix with
    | nil => rfl
    | cons x xs ih => simp only [List.map_cons, ih]
  · intro s d
    simp only [optimize_pol_system, List.mem_map]
    constructor
    · rintro ⟨idx, hidx, he⟩
      rw [Prod.mk.injEq] at he
      obtain ⟨h1, h2⟩ := he
      subst h1
      subst h2
      exact ⟨hidx, hKey _⟩
    · rintro ⟨hs, hiff⟩
      refine ⟨s, hs, ?_⟩
      have hb : (pol_system.constraints.foldl
          (fun acc cst =>
            match is_constraint_binary_restriction cst context.field with
            | some bin_signal => setInsert bin_signal acc
            | none => acc) []).contains s = d.is_boolean := by
        have h2 := (hKey s).trans hiff.symm
        cases hcontains : (pol_system.constraints.foldl
            (fun acc cst =>
              match is_constraint_binary_restriction cst context.field with
              | some bin_signal => setInsert bin_signal acc
              | none => acc) []).contains s <;>
          cases hd : d.is_boolean <;> rw [hcontains, hd] at h2 <;> simp_all
      cases d
      simp only at hb
      rw [hb]

/-! ### Prohibition polynomial and CAS script emitter
(src/verification/src/polynomial_system_fixer.rs, lines 328-540) -/

/-- How a signal is displayed (`SignalDisplayKind`). -/
inductive SignalDisplayKind where
  | Name
  | Index
deriving DecidableEq, Repr

/-- Decimal rendering of a `usize` (Rust `Display`). -/
def natToDecimal (n : Nat) : String := Nat.repr n

/-- Decimal rendering of a `BigInt` (Rust `Display`): minus sign for
negative values. -/
def intToDecimal : Int → String
  | Int.ofNat m => Nat.repr m
  | Int.negSucc m => "-" ++ Nat.repr (m + 1)

/-- A signal as displayed under the given kind: its symbol-table name, or
`x_<index>`. -/
def displayName (context : InputDataContextView) (kind : SignalDisplayKind)
    (s : Nat) : String :=
  match kind with
  | SignalDisplayKind.Name => context.signal_name_map s
  | SignalDisplayKind.Index => "x_" ++ natToDecimal s

/-- Result of `get_prohibition_witness_polynomial`
(`ProhibitionPolynomial`). -/
structure ProhibitionPolynomial where
  string : String
  num_vars : Nat
deriving DecidableEq, Repr

/-- The closure mapped over `signals_to_fix` inside
`get_prohibition_witness_polynomial`: the emitted factor together with its
contribution to `num_vars`. -/
def prohibitionFactor (context : InputDataContextView)
    (display_kind : SignalDisplayKind) (p : Nat × SignalToFixData) :
    String × Nat :=
  let signal_name := displayName context display_kind p.1
  let witness_value := context.witness p.1
  if p.2.is_boolean then
    ("(" ++ signal_name ++ " - " ++ intToDecimal (1 - witness_value) ++ ")", 1)
  else
    ("((" ++ signal_name ++ " - " ++ intToDecimal witness_value ++ ")*u_" ++
      natToDecimal p.1 ++ " - 1)", 2)

/-- The interspersed collection of the factors (`Itertools::intersperse`
with separator `" * "`, collected to a string, with `num_vars` accumulated
alongside). -/
def prohibitionParts (context : InputDataContextView)
    (display_kind : SignalDisplayKind) :
    List (Nat × SignalToFixData) → String × Nat
  | [] => ("", 0)
  | [p] => prohibitionFactor context display_kind p
  | p :: q :: rest =>
    let f := prohibitionFactor context display_kind p
    let r := prohibitionParts context display_kind (q :: rest)
    (f.1 ++ " * " ++ r.1, f.2 + r.2)

/-- Embedding of `get_prohibition_witness_polynomial`. -/
def get_prohibition_witness_polynomial
    (signals_to_fix : List (Nat × SignalToFixData))
    (context : InputDataContextView) (display_kind : SignalDisplayKind) :
    ProhibitionPolynomial :=
  if signals_to_fix.isEmpty then
    { string := match display_kind with
        | SignalDisplayKind.Name => "0"
        | SignalDisplayKind.Index => "RingElem(R, 0)"
      num_vars := 0 }
  else
    let parts := prohibitionParts context display_kind signals_to_fix
    { string := parts.1, num_vars := parts.2 }

/-- Join a list of strings with a separator (`Itertools::intersperse`
followed by `collect`). -/
def joinSep (sep : String) : List String → String
  | [] => ""
  | [x] => x
  | x :: y :: rest => x ++ sep ++ joinSep sep (y :: rest)

/-- Prettified coefficient (`coefficient_to_string`): values above `p/2` are
shown as negated complements. -/
def coefficient_to_string (coeff : Int) (prime_field : Int) : String :=
  if coeff > prime_field / 2 then "-" ++ intToDecimal (prime_field - coeff)
  else intToDecimal coeff

/-- Leading-minus test (`str::starts_with('-')`). -/
def strHeadDash (s : String) : Bool :=
  match s.data with
  | [] => false
  | ch :: _ => ch = '-'

/-- Drop the first character (`chars().skip(1).collect()`). -/
def strTail (s : String) : String := String.mk s.data.tail

/-- Stable sort of a linear term by signal index
(`iter().sorted_by_key(idx)`). -/
def insertByKey (q : Nat × Int) : LinMap → LinMap
  | [] => [q]
  | x :: xs => if q.1 ≤ x.1 then q :: x :: xs else x :: insertByKey q xs

def sortByKey (l : LinMap) : LinMap := l.foldr insertByKey []

/-- Embedding of `linear_term_to_string`. -/
def linear_term_to_string (linear_term : LinMap)
    (context : InputDataContextView) (surround_with_parenthesis : Bool)
    (display_kind : SignalDisplayKind) : String :=
  if linear_term.isEmpty then "0"
  else
    let prime := context.field
    let s := ((sortByKey linear_term).map (fun q =>
      if q.1 = constantCoefficient then coefficient_to_string q.2 prime
      else
        let signal_name := displayName context display_kind q.1
        if q.2 = 1 then signal_name
        else if q.2 = prime - 1 then "-" ++ signal_name
        else coefficient_to_string q.2 prime ++ "*" ++ signal_name)).foldl
      (fun curr next =>
        if curr.isEmpty then next
        else if strHeadDash next then curr ++ " - " ++ strTail next
        else curr ++ " + " ++ next) ""
    if surround_with_parenthesis && linear_term.length > 1 then
      "(" ++ s ++ ")"
    else s

/-- Embedding of `get_constraint_polynomial`. -/
def get_constraint_polynomial (constraint : Constraint)
    (context : InputDataContextView) (display_kind : SignalDisplayKind) :
    String :=
  if constraint.a.isEmpty || constraint.b.isEmpty then
    linear_term_to_string constraint.c context false display_kind
  else
    let a_str := linear_term_to_string constraint.a context true display_kind
    let b_str := linear_term_to_string constraint.b context true display_kind
    let c_str := linear_term_to_string constraint.c context false display_kind
    if strHeadDash c_str then
      a_str ++ " * " ++ b_str ++ " - " ++ strTail c_str
    else if constraint.c.isEmpty then
      a_str ++ " * " ++ b_str
    else
      a_str ++ " * " ++ b_str ++ " + " ++ c_str

/-- The block emitted when an obligation is abandoned because of the
variable-count guard (`formatdoc` at polynomial_system_fixer.rs:447-449). -/
def timeoutScript (pol_system_idx : Nat) : String :=
  "println \"TIMEOUT: " ++ natToDecimal pol_system_idx ++ "\";\n"

/-- The block emitted for a submitted obligation: ring declaration, ideal,
and a timed Groebner-basis call (`formatdoc` at
polynomial_system_fixer.rs:466-483). -/
def groebnerScript (vars pols : String) (timeout pol_system_idx : Nat) :
    String :=
  "use R ::= F[" ++ vars ++ "];\n\nI := ideal(" ++ pols ++ ");\n\nTry\n" ++
    "    B := GBasisTimeout(I, " ++ natToDecimal timeout ++ ");\n\n" ++
    "    If not(1 IsIn I) Then\n        println \"ERROR: " ++
    natToDecimal pol_system_idx ++ "\";\n        exit;\n    Else;\n" ++
    "        println \"OK: " ++ natToDecimal pol_system_idx ++
    "\";\n    EndIf;\nUponError E Do\n    println \"TIMEOUT: " ++
    natToDecimal pol_system_idx ++ "\";\nEndTry;\n"

/-- Embedding of `get_cocoa_subscript`.  Note that `var_limit` is the
hardcoded constant 75 of the source (polynomial_system_fixer.rs:444) and the
Groebner timeout is the hardcoded constant 5 (line 464); the corresponding
`Options` fields carried by the context are not consulted. -/
def get_cocoa_subscript (pol_system : OptimizedPolynomialSystemFixedSignal)
    (context : InputDataContextView) (pol_system_idx : Nat) : String :=
  let used_signal_indices := pol_system.constraints.foldl
    (fun acc cst => setUnion acc cst.signalsSet) []
  let prohibition_vars := pol_system.signals_to_fix.filterMap
    (fun p => if p.2.is_boolean then none
      else some ("u_" ++ natToDecimal p.1))
  let vars := joinSep ", "
    ((used_signal_indices.map (fun i => "x_" ++ natToDecimal i)) ++
      prohibition_vars)
  let prohibition_polynomial := get_prohibition_witness_polynomial
    pol_system.signals_to_fix context SignalDisplayKind.Index
  let var_limit := 75
  if prohibition_polynomial.num_vars > var_limit then
    timeoutScript pol_system_idx
  else
    let pols := joinSep ",\n"
      ((pol_system.constraints.map
        (fun cst => get_constraint_polynomial cst context
          SignalDisplayKind.Index)) ++ [prohibition_polynomial.string])
    groebnerScript vars pols 5 pol_system_idx

/-- The factor demanded by the spec for one signal to fix, rendered: for a
non-boolean signal with witness `w` the Rabinowitsch factor
`(x_s − w)·u_s − 1`, for a boolean signal the direct prohibition
`(x_s − (1 − w))`. -/
def specProhibitionFactor (context : InputDataContextView)
    (display_kind : SignalDisplayKind) (s : Nat) (boolean : Bool) : String :=
  if boolean then
    "(" ++ displayName context display_kind s ++ " - " ++
      intToDecimal (1 - context.witness s) ++ ")"
  else
    "((" ++ displayName context display_kind s ++ " - " ++
      intToDecimal (context.witness s) ++ ")*u_" ++ natToDecimal s ++
      " - 1)"

lemma prohibitionFactor_fst (context : InputDataContextView)
    (display_kind : SignalDisplayKind) (p : Nat × SignalToFixData) :
    (prohibitionFactor context display_kind p).1 =
      specProhibitionFactor context display_kind p.1 p.2.is_boolean := by
  cases hb : p.2.is_boolean <;>
    simp [prohibitionFactor, specProhibitionFactor, hb]

lemma prohibitionFactor_snd (context : InputDataContextView)
    (display_kind : SignalDisplayKind) (p : Nat × SignalToFixData) :
    (prohibitionFactor context display_kind p).2 =
      if p.2.is_boolean then 1 else 2 := by
  cases hb : p.2.is_boolean <;>
    simp [prohibitionFactor, hb]

lemma prohibitionParts_spec (context : InputDataContextView)
    (display_kind : SignalDisplayKind)
    (stf : List (Nat × SignalToFixData)) (hne : stf ≠ []) :
    prohibitionParts context display_kind stf =
      (joinSep " * " (stf.map (fun p =>
          specProhibitionFactor context display_kind p.1 p.2.is_boolean)),
        (stf.map (fun p => if p.2.is_boolean then 1 else 2)).sum) := by
  induction stf with
  | nil => exact absurd rfl hne
  | cons p rest ih =>
    cases rest with
    | nil =>
      simp only [prohibitionParts, List.map_cons, List.map_nil, joinSep,
        List.sum_cons, List.sum_nil]
      rw [Prod.ext_iff]
      exact ⟨prohibitionFactor_fst _ _ _, by
        rw [prohibitionFactor_snd]; omega⟩
    | cons q rest2 =>
      simp only [prohibitionParts, ih (by simp), List.map_cons,
        List.sum_cons, joinSep]
      rw [Prod.ext_iff]
      refine ⟨?_, ?_⟩
      · simp only [prohibitionFactor_fst]
      · simp only [prohibitionFactor_snd]

/-- C2: for every signal in `signals_to_fix` with witness `w`, the factor
contributed to the prohibition polynomial is `(x_s − w)·u_s − 1`
(contributing two variables) when the signal is not tagged boolean and
`(x_s − (1 − w))` (contributing one variable) when it is; the polynomial is
the `" * "`-product of these factors and `num_vars` is the corresponding
sum. -/
theorem claim_C2 (context : InputDataContextView)
    (display_kind : SignalDisplayKind)
    (stf : List (Nat × SignalToFixData)) (hne : stf ≠ []) :
    (get_prohibition_witness_polynomial stf context display_kind).string =
        joinSep " * " (stf.map (fun p =>
          specProhibitionFactor context display_kind p.1 p.2.is_boolean)) ∧
      (get_prohibition_witness_polynomial stf context display_kind).num_vars =
        (stf.map (fun p => if p.2.is_boolean then 1 else 2)).sum := by
  have hne2 : stf.isEmpty = false := by
    cases stf
    · exact absurd rfl hne
    · rfl
  rw [get_prohibition_witness_polynomial.eq_def, hne2]
  simp only [Bool.false_eq_true, if_false]
  rw [prohibitionParts_spec context display_kind stf hne]
  exact ⟨rfl, rfl⟩

/-- Witness for C2 at a concrete two-signal obligation. -/
theorem claim_C2_witness :
    (get_prohibition_witness_polynomial
        [(3, ⟨false⟩), (4, ⟨true⟩)]
        { witness := fun n => (n : Int)
          signal_name_map := fun n => "sig" ++ natToDecimal n
          tree_constraints :=
            { no_constraints := 0, initial_constraint := 0
              number_inputs := 0, number_outputs := 0, number_signals := 0
              initial_signal := 0, are_double_arrow := []
              subcomponents := [] }
          field := 7
          constraint_storage := fun _ => ⟨[], [], []⟩
          options := Options.default }
        SignalDisplayKind.Index).string =
      "((x_3 - 3)*u_3 - 1) * (x_4 - -3)" := by
  have h := claim_C2
    { witness := fun n => (n : Int)
      signal_name_map := fun n => "sig" ++ natToDecimal n
      tree_constraints :=
        { no_constraints := 0, initial_constraint := 0
          number_inputs := 0, number_outputs := 0, number_signals := 0
          initial_signal := 0, are_double_arrow := []
          subcomponents := [] }
      field := 7
      constraint_storage := fun _ => ⟨[], [], []⟩
      options := Options.default }
    SignalDisplayKind.Index [(3, ⟨false⟩), (4, ⟨true⟩)] (by simp)
  rw [h.1]
  rfl

/-- C9: on an obligation with empty `signals_to_fix` the prohibition
polynomial is the zero ring element — `RingElem(R, 0)` in index display,
`0` in name display — with zero variables, so the variable-count guard never
fires and the obligation is submitted to the CAS with the zero polynomial
adjoined to its ideal. -/
theorem claim_C9 (context : InputDataContextView)
    (pol_system : OptimizedPolynomialSystemFixedSignal) (idx : Nat)
    (h : pol_system.signals_to_fix = []) :
    get_prohibition_witness_polynomial pol_system.signals_to_fix context
        SignalDisplayKind.Index = ⟨"RingElem(R, 0)", 0⟩ ∧
      get_prohibition_witness_polynomial pol_system.signals_to_fix context
        SignalDisplayKind.Name = ⟨"0", 0⟩ ∧
      get_cocoa_subscript pol_system context idx =
        groebnerScript
          (joinSep ", "
            ((pol_system.constraints.foldl
              (fun acc cst => setUnion acc cst.signalsSet) []).map
                (fun i => "x_" ++ natToDecimal i)))
          (joinSep ",\n"
            ((pol_system.constraints.map
              (fun cst => get_constraint_polynomial cst context
                SignalDisplayKind.Index)) ++ ["RingElem(R, 0)"]))
          5 idx := by
  obtain ⟨cs, stf, tn, cn⟩ := pol_system
  simp only at h
  subst h
  refine ⟨rfl, rfl, ?_⟩
  simp only [get_cocoa_subscript, List.filterMap_nil, List.append_nil]
  rfl

/-- Witness for C9 at a concrete empty obligation. -/
theorem claim_C9_witness :
    get_cocoa_subscript
        { constraints := [⟨[], [], [(2, 3), (0, 1)]⟩]
          signals_to_fix := []
          template_name := "T", component_name := "main.t" }
        { witness := fun _ => 0
          signal_name_map := fun n => "w" ++ natToDecimal n
          tree_constraints :=
            { no_constraints := 0, initial_constraint := 0
              number_inputs := 0, number_outputs := 0, number_signals := 0
              initial_signal := 0, are_double_arrow := []
              subcomponents := [] }
          field := 101
          constraint_storage := fun _ => ⟨[], [], []⟩
          options := Options.default }
        0 =
      groebnerScript "x_2" "1 + 3*x_2,\nRingElem(R, 0)" 5 0 := by
  have h := claim_C9
    { witness := fun _ => 0
      signal_name_map := fun n => "w" ++ natToDecimal n
      tree_constraints :=
        { no_constraints := 0, initial_constraint := 0
          number_inputs := 0, number_outputs := 0, number_signals := 0
          initial_signal := 0, are_double_arrow := []
          subcomponents := [] }
      field := 101
      constraint_storage := fun _ => ⟨[], [], []⟩
      options := Options.default }
    { constraints := [⟨[], [], [(2, 3), (0, 1)]⟩]
      signals_to_fix := []
      template_name := "T", component_name := "main.t" }
    0 rfl
  rw [h.2.2]
  rfl

/-! ### C5: the variable-count guard against the the `--maxvars` (`-m`) option.
The CLI (cli.rs, lines 50-57 and 71-73) parses the `--maxvars` (`-m`) into
`Options.max_vars_prohibition_polynomial_before_timeout` (default 75) and
documents it as "Set a custom number of variables allowed inside a
prohibition polynomial before timing-out", but `get_cocoa_subscript`
compares against the hardcoded constant 75 and never reads the option.  The
following theorem exhibits the divergence: with `maxvars = 100` configured,
an obligation whose prohibition polynomial has 76 variables (38 non-boolean
signals) is still emitted as a bare TIMEOUT block, and the emitted script is
independent of the options altogether. -/

def frameC5 : TreeConstraintsFrame :=
  { no_constraints := 0, initial_constraint := 0, number_inputs := 0
    number_outputs := 0, number_signals := 0, initial_signal := 0
    are_double_arrow := [], subcomponents := [] }

def contextC5 : InputDataContextView :=
  { witness := fun _ => 0
    signal_name_map := fun n => "s" ++ natToDecimal n
    tree_constraints := frameC5
    field := 101
    constraint_storage := fun _ => ⟨[], [], []⟩
    options :=
      { groebner_cocoa_timeout_seconds := 5
        max_vars_prohibition_polynomial_before_timeout := 100
        generate_svg_diagrams := false
        generate_only_last_propagation_svg := false } }

def polSystemC5 : OptimizedPolynomialSystemFixedSignal :=
  { constraints := []
    signals_to_fix := (List.range 38).map (fun i => (i, ⟨false⟩))
    template_name := "Num2Bits"
    component_name := "main.n2b" }

lemma displayName_options (ctx : InputDataContextView) (o : Options)
    (kind : SignalDisplayKind) (s : Nat) :
    displayName { ctx with options := o } kind s = displayName ctx kind s := by
  cases kind <;> rfl

lemma prohibitionFactor_options (ctx : InputDataContextView) (o : Options)
    (kind : SignalDisplayKind) (p : Nat × SignalToFixData) :
    prohibitionFactor { ctx with options := o } kind p =
      prohibitionFactor ctx kind p := by
  simp only [prohibitionFactor, displayName_options]

lemma prohibitionParts_options (ctx : InputDataContextView) (o : Options)
    (kind : SignalDisplayKind) (l : List (Nat × SignalToFixData)) :
    prohibitionParts { ctx with options := o } kind l =
      prohibitionParts ctx kind l := by
  induction l with
  | nil => rfl
  | cons p rest ih =>
    cases rest with
    | nil =>
      simp only [prohibitionParts]
      exact prohibitionFactor_options ctx o kind p
    | cons q rest2 =>
      simp only [prohibitionParts, prohibitionFactor_options, ih]

lemma get_prohibition_options (ctx : InputDataContextView) (o : Options)
    (kind : SignalDisplayKind) (l : List (Nat × SignalToFixData)) :
    get_prohibition_witness_polynomial l { ctx with options := o } kind =
      get_prohibition_witness_polynomial l ctx kind := by
  cases l with
  | nil => rfl
  | cons p rest =>
    simp only [get_prohibition_witness_polynomial,
      prohibitionParts_options]

lemma linear_term_options (ctx : InputDataContextView) (o : Options)
    (lt : LinMap) (paren : Bool) (kind : SignalDisplayKind) :
    linear_term_to_string lt { ctx with options := o } paren kind =
      linear_term_to_string lt ctx paren kind := by
  simp only [linear_term_to_string, displayName_options]

lemma get_constraint_polynomial_options (ctx : InputDataContextView)
    (o : Options) (cst : Constraint) (kind : SignalDisplayKind) :
    get_constraint_polynomial cst { ctx with options := o } kind =
      get_constraint_polynomial cst ctx kind := by
  simp only [get_constraint_polynomial, linear_term_options]

lemma get_cocoa_subscript_options (ps : OptimizedPolynomialSystemFixedSignal)
    (ctx : InputDataContextView) (idx : Nat) (o : Options) :
    get_cocoa_subscript ps { ctx with options := o } idx =
      get_cocoa_subscript ps ctx idx := by
  simp only [get_cocoa_subscript, get_prohibition_options,
    get_constraint_polynomial_options]

/-- C5: evaluation of `get_cocoa_subscript` at the failing input — the
configured `maxvars` is 100, the prohibition polynomial has 76 ≤ 100
variables, yet the emitted block is the bare TIMEOUT line; moreover the
emitted script never depends on the options record at all. -/
theorem claim_C5_divergence :
    contextC5.options.max_vars_prohibition_polynomial_before_timeout = 100 ∧
      (get_prohibition_witness_polynomial polSystemC5.signals_to_fix
        contextC5 SignalDisplayKind.Index).num_vars = 76 ∧
      (76 : Nat) ≤ 100 ∧
      get_cocoa_subscript polSystemC5 contextC5 0 = timeoutScript 0 ∧
      (∀ (ps : OptimizedPolynomialSystemFixedSignal)
        (ctx : InputDataContextView) (idx : Nat) (o : Options),
        get_cocoa_subscript ps { ctx with options := o } idx =
          get_cocoa_subscript ps ctx idx) := by
  refine ⟨rfl, ?_, by norm_num, ?_, get_cocoa_subscript_options⟩
  · decide
  · decide

/-! ### CAS driver line protocol
(src/verification/src/polynomial_system_fixer.rs, lines 64-216:
`verify_pol_systems` and `display_unverified_modules`) -/

/-- Embedding of `str::strip_prefix` over character lists. -/
def dropPre : List Char → List Char → Option (List Char)
  | [], s => some s
  | _ :: _, [] => none
  | p :: ps, x :: xs => if x = p then dropPre ps xs else none

/-- Embedding of `usize::from_str` as used through `str::parse::<usize>()`:
an optional leading `+` followed by at least one decimal digit (overflow is
not modelled; the protocol only carries obligation indices). -/
def parseUsizeChars (l : List Char) : Option Nat :=
  let l2 := if l.head? = some '+' then l.tail else l
  if l2 ≠ [] ∧ l2.all Char.isDigit then
    some (l2.foldl (fun n ch => 10 * n + (ch.toNat - 48)) 0)
  else none

/-- Classification of one CAS output line by the driver loop.  A line whose
matched prefix is followed by an unparsable number surfaces the `?` parse
error, and a line matching no arm hits `unreachable!()`; both are fatal. -/
inductive LineClass where
  | okLine (n : Nat)
  | errorLine (n : Nat)
  | timeoutLine (n : Nat)
  | finishedLine
  | fatalLine
deriving DecidableEq, Repr

/-- The line dispatch of the `for maybe_line in ...` loop body. -/
def classifyLine (l : List Char) : LineClass :=
  match dropPre ("OK: ".data) l with
  | some num_str =>
    match parseUsizeChars num_str with
    | some n => LineClass.okLine n
    | none => LineClass.fatalLine
  | none =>
    match dropPre ("ERROR: ".data) l with
    | some num_str =>
      match parseUsizeChars num_str with
      | some n => LineClass.errorLine n
      | none => LineClass.fatalLine
    | none =>
      match dropPre ("TIMEOUT: ".data) l with
      | some num_str =>
        match parseUsizeChars num_str with
        | some n => LineClass.timeoutLine n
        | none => LineClass.fatalLine
      | none =>
        if l = "FINISHED".data then LineClass.finishedLine
        else LineClass.fatalLine

/-- The observable outcome of `verify_pol_systems`: `Ok(true)`, `Ok(false)`
with the two accumulated failure lists, or a fatal exit (an `Err` from a
parse, the `unreachable!()` panic, or stream exhaustion without
`FINISHED`). -/
inductive VerifyOutcome where
  | success
  | failure (many_solutions timed_outs : List Nat)
  | fatal
deriving DecidableEq, Repr

/-- The driver loop over the CAS output lines, carrying
`vec_many_solutions` and `vec_timed_outs`. -/
def verifyLoop : List (List Char) → List Nat → List Nat → VerifyOutcome
  | [], _, _ => VerifyOutcome.fatal
  | l :: rest, many, timed =>
    match classifyLine l with
    | LineClass.okLine _ => verifyLoop rest many timed
    | LineClass.errorLine n => verifyLoop rest (many ++ [n]) timed
    | LineClass.timeoutLine n => verifyLoop rest many (timed ++ [n])
    | LineClass.finishedLine =>
      if many = [] ∧ timed = [] then VerifyOutcome.success
      else VerifyOutcome.failure many timed
    | LineClass.fatalLine => VerifyOutcome.fatal

/-- Embedding of the read loop of `verify_pol_systems` on a given stream of
output lines. -/
def verify_pol_systems_outcome (lines : List (List Char)) : VerifyOutcome :=
  verifyLoop lines [] []

/-- Ordered string-set insert (`BTreeSet<&str>::insert`). -/
def sortedInsertStr (s : String) : List String → List String
  | [] => [s]
  | x :: xs =>
    if s < x then s :: x :: xs
    else if s = x then x :: xs
    else x :: sortedInsertStr s xs

/-- String-keyed map insert with overwrite (`BTreeMap<&str, &str>`). -/
def strMapInsert (m : List (String × String)) (k v : String) :
    List (String × String) :=
  (k, v) :: m.filter (fun p => p.1 ≠ k)

def alookupStr : String → List (String × String) → Option String
  | _, [] => none
  | k, p :: rest => if p.1 = k then some p.2 else alookupStr k rest

/-- Fallback obligation for the out-of-range indexing `pol_systems[*idx]`
(which panics in Rust; the driver only ever passes indices it received for
these same systems). -/
def defaultPolSystem : PolynomialSystemFixedSignal :=
  { constraints := [], signals_to_fix := [], template_name := ""
    component_name := "" }

/-- The `unique_component_names` set built by `display_unverified_modules`,
in iteration (ascending) order. -/
def uniqueComponentNames (pol_systems : List PolynomialSystemFixedSignal)
    (unverified_indices : List Nat) : List String :=
  unverified_indices.foldl
    (fun acc idx =>
      sortedInsertStr (pol_systems.getD idx defaultPolSystem).component_name
        acc) []

/-- The `component_name_to_template_name` map built by
`display_unverified_modules`. -/
def componentTemplateMap (pol_systems : List PolynomialSystemFixedSignal)
    (unverified_indices : List Nat) : List (String × String) :=
  unverified_indices.foldl
    (fun acc idx =>
      strMapInsert acc (pol_systems.getD idx defaultPolSystem).component_name
        (pol_systems.getD idx defaultPolSystem).template_name) []

/-- Embedding of `display_unverified_modules`: the red report line grouping
the failed obligations by containing component. -/
def display_unverified_modules
    (pol_systems : List PolynomialSystemFixedSignal)
    (unverified_indices : List Nat) (unverified_reason : String) : String :=
  let unique_component_names :=
    uniqueComponentNames pol_systems unverified_indices
  let component_name_to_template_name :=
    componentTemplateMap pol_systems unverified_indices
  let display_str := joinSep ", "
    (unique_component_names.map (fun s =>
      s ++ ": " ++ (alookupStr s component_name_to_template_name).getD ""))
  "Failed to verify due to " ++ unverified_reason ++ " " ++
    natToDecimal unverified_indices.length ++ " polynomial systems in " ++
    natToDecimal unique_component_names.length ++ " components: [" ++
    display_str ++ "]"

lemma dropPre_eq_some_iff (p l r : List Char) :
    dropPre p l = some r ↔ l = p ++ r := by
  induction p generalizing l with
  | nil =>
    simp [dropPre, eq_comm]
  | cons pc ps ih =>
    cases l with
    | nil => simp [dropPre]
    | cons x xs =>
      simp only [dropPre, List.cons_append, List.cons.injEq]
      by_cases hx : x = pc
      · subst hx
        simp [ih]
      · simp [hx]

lemma classify_finished_iff (l : List Char) :
    classifyLine l = LineClass.finishedLine ↔ l = "FINISHED".data := by
  unfold classifyLine
  split
  · rename_i num_str heq
    have hl : l = "OK: ".data ++ num_str := (dropPre_eq_some_iff _ _ _).mp heq
    split <;>
      (constructor
       · intro hcon
         simp at hcon
       · intro hfin
         rw [hfin] at hl
         have h0 : ¬ ("FINISHED".data = "OK: ".data ++ num_str) := by
           intro hc
           have h1 := congrArg (fun t => t.take 3) hc
           simp at h1
         exact (h0 hl).elim)
  · rename_i hok
    split
    · rename_i num_str heq
      have hl : l = "ERROR: ".data ++ num_str := (dropPre_eq_some_iff _ _ _).mp heq
      split <;>
        (constructor
         · intro hcon
           simp at hcon
         · intro hfin
           rw [hfin] at hl
           have h0 : ¬ ("FINISHED".data = "ERROR: ".data ++ num_str) := by
             intro hc
             have h1 := congrArg (fun t => t.take 3) hc
             simp at h1
           exact (h0 hl).elim)
    · rename_i herr
      split
      · rename_i num_str heq
        have hl : l = "TIMEOUT: ".data ++ num_str :=
          (dropPre_eq_some_iff _ _ _).mp heq
        split <;>
          (constructor
           · intro hcon
             simp at hcon
           · intro hfin
             rw [hfin] at hl
             have h0 : ¬ ("FINISHED".data = "TIMEOUT: ".data ++ num_str) := by
               intro hc
               have h1 := congrArg (fun t => t.take 3) hc
               simp at h1
             exact (h0 hl).elim)
      · rename_i htime
        by_cases hfin : l = "FINISHED".data
        · simp [hfin]
        · simp [hfin]

/-- The four line shapes the driver accepts: `OK: N`, `ERROR: N`,
`TIMEOUT: N` (with a parsable `N`), and `FINISHED`. -/
def GoodLineShape (l : List Char) : Prop :=
  (∃ r n, l = "OK: ".data ++ r ∧ parseUsizeChars r = some n) ∨
  (∃ r n, l = "ERROR: ".data ++ r ∧ parseUsizeChars r = some n) ∨
  (∃ r n, l = "TIMEOUT: ".data ++ r ∧ parseUsizeChars r = some n) ∨
  l = "FINISHED".data

lemma append_cancel_left_chars (p r1 r2 : List Char) (h : p ++ r1 = p ++ r2) :
    r1 = r2 := by
  induction p with
  | nil => exact h
  | cons x xs ih =>
    simp only [List.cons_append, List.cons.injEq, true_and] at h
    exact ih h

lemma append_clash (p1 p2 r1 r2 : List Char)
    (h : p1 ++ r1 = p2 ++ r2) (h1 : 3 ≤ p1.length) (h2 : 3 ≤ p2.length)
    (hne : p1.take 3 ≠ p2.take 3) : False := by
  apply hne
  have h3 := congrArg (fun t => t.take 3) h
  simp only at h3
  rwa [List.take_append_of_le_length h1,
    List.take_append_of_le_length h2] at h3

lemma dropPre_none_clash (p l r : List Char) (hnone : dropPre p l = none)
    (hr : l = p ++ r) : False := by
  have h := (dropPre_eq_some_iff p l r).mpr hr
  rw [hnone] at h
  exact Option.noConfusion h

/-- Every CAS output line other than `OK: N`, `ERROR: N`, `TIMEOUT: N` and
`FINISHED` is classified fatal, and none of those four is. -/
lemma classify_fatal_iff (l : List Char) :
    classifyLine l = LineClass.fatalLine ↔ ¬ GoodLineShape l := by
  unfold classifyLine
  split
  · rename_i num_str heq
    have hl : l = "OK: ".data ++ num_str := (dropPre_eq_some_iff _ _ _).mp heq
    split
    · rename_i n hparse
      exact iff_of_false (by simp)
        (not_not_intro (Or.inl ⟨num_str, n, hl, hparse⟩))
    · rename_i hparse
      refine iff_of_true rfl ?_
      rintro (⟨r, n, hr, hp⟩ | ⟨r, n, hr, hp⟩ | ⟨r, n, hr, hp⟩ | hfin)
      · rw [hl] at hr
        rw [append_cancel_left_chars _ _ _ hr] at hparse
        rw [hparse] at hp
        exact Option.noConfusion hp
      · rw [hl] at hr
        exact append_clash _ _ _ _ hr (by decide) (by decide) (by decide)
      · rw [hl] at hr
        exact append_clash _ _ _ _ hr (by decide) (by decide) (by decide)
      · have h2 : "OK: ".data ++ num_str = "FINISHED".data ++ [] := by
          rw [List.append_nil]
          exact hl.symm.trans hfin
        exact append_clash _ _ _ _ h2 (by decide) (by decide) (by decide)
  · rename_i hok
    split
    · rename_i num_str heq
      have hl : l = "ERROR: ".data ++ num_str :=
        (dropPre_eq_some_iff _ _ _).mp heq
      split
      · rename_i n hparse
        exact iff_of_false (by simp)
          (not_not_intro (Or.inr (Or.inl ⟨num_str, n, hl, hparse⟩)))
      · rename_i hparse
        refine iff_of_true rfl ?_
        rintro (⟨r, n, hr, hp⟩ | ⟨r, n, hr, hp⟩ | ⟨r, n, hr, hp⟩ | hfin)
        · exact dropPre_none_clash _ _ _ hok hr
        · rw [hl] at hr
          rw [append_cancel_left_chars _ _ _ hr] at hparse
          rw [hparse] at hp
          exact Option.noConfusion hp
        · rw [hl] at hr
          exact append_clash _ _ _ _ hr (by decide) (by decide) (by decide)
        · have h2 : "ERROR: ".data ++ num_str = "FINISHED".data ++ [] := by
            rw [List.append_nil]
            exact hl.symm.trans hfin
          exact append_clash _ _ _ _ h2 (by decide) (by decide) (by decide)
    · rename_i herr
      split
      · rename_i num_str heq
        have hl : l = "TIMEOUT: ".data ++ num_str :=
          (dropPre_eq_some_iff _ _ _).mp heq
        split
        · rename_i n hparse
          exact iff_of_false (by simp)
            (not_not_intro (Or.inr (Or.inr (Or.inl ⟨num_str, n, hl, hparse⟩))))
        · rename_i hparse
          refine iff_of_true rfl ?_
          rintro (⟨r, n, hr, hp⟩ | ⟨r, n, hr, hp⟩ | ⟨r, n, hr, hp⟩ | hfin)
          · exact dropPre_none_clash _ _ _ hok hr
          · exact dropPre_none_clash _ _ _ herr hr
          · rw [hl] at hr
            rw [append_cancel_left_chars _ _ _ hr] at hparse
            rw [hparse] at hp
            exact Option.noConfusion hp
          · have h2 : "TIMEOUT: ".data ++ num_str = "FINISHED".data ++ [] := by
              rw [List.append_nil]
              exact hl.symm.trans hfin
            exact append_clash _ _ _ _ h2 (by decide) (by decide) (by decide)
      · rename_i htime
        by_cases hfin : l = "FINISHED".data
        · rw [if_pos hfin]
          exact iff_of_false (by simp)
            (not_not_intro (Or.inr (Or.inr (Or.inr hfin))))
        · rw [if_neg hfin]
          refine iff_of_true rfl ?_
          rintro (⟨r, n, hr, hp⟩ | ⟨r, n, hr, hp⟩ | ⟨r, n, hr, hp⟩ | hf)
          · exact dropPre_none_clash _ _ _ hok hr
          · exact dropPre_none_clash _ _ _ herr hr
          · exact dropPre_none_clash _ _ _ htime hr
          · exact hfin hf

lemma verifyLoop_success_iff (lines : List (List Char))
    (many timed : List Nat) :
    verifyLoop lines many timed = VerifyOutcome.success ↔
      many = [] ∧ timed = [] ∧ ∃ pre rest,
        lines = pre ++ "FINISHED".data :: rest ∧
          ∀ l2 ∈ pre, ∃ n, classifyLine l2 = LineClass.okLine n := by
  induction lines generalizing many timed with
  | nil =>
    simp only [verifyLoop]
    constructor
    · intro h
      exact absurd h (by simp)
    · rintro ⟨-, -, pre, rest, hsplit, -⟩
      exact absurd hsplit (by simp)
  | cons l rest ih =>
    have hfin := classify_finished_iff l
    cases hcl : classifyLine l with
    | okLine n =>
      simp only [verifyLoop, hcl]
      rw [ih]
      constructor
      · rintro ⟨hm, ht, pre2, r2, hsplit, hok⟩
        refine ⟨hm, ht, l :: pre2, r2, by rw [hsplit]; rfl, ?_⟩
        intro l2 hl2
        rcases List.mem_cons.mp hl2 with rfl | h2
        · exact ⟨n, hcl⟩
        · exact hok l2 h2
      · rintro ⟨hm, ht, pre, r2, hsplit, hok⟩
        cases pre with
        | nil =>
          simp only [List.nil_append, List.cons.injEq] at hsplit
          have h2 := hfin.mpr hsplit.1
          rw [hcl] at h2
          exact absurd h2 (by simp)
        | cons p pre2 =>
          simp only [List.cons_append, List.cons.injEq] at hsplit
          exact ⟨hm, ht, pre2, r2, hsplit.2,
            fun l2 h2 => hok l2 (List.mem_cons_of_mem _ h2)⟩
    | errorLine n =>
      simp only [verifyLoop, hcl]
      rw [ih]
      constructor
      · rintro ⟨hm, -, -⟩
        exact absurd hm (by simp)
      · rintro ⟨hm, ht, pre, r2, hsplit, hok⟩
        cases pre with
        | nil =>
          simp only [List.nil_append, List.cons.injEq] at hsplit
          rw [hfin.mpr hsplit.1] at hcl
          exact absurd hcl (by simp)
        | cons p pre2 =>
          simp only [List.cons_append, List.cons.injEq] at hsplit
          obtain ⟨n2, hn2⟩ := hok p (by simp)
          rw [← hsplit.1] at hn2
          rw [hcl] at hn2
          exact absurd hn2 (by simp)
    | timeoutLine n =>
      simp only [verifyLoop, hcl]
      rw [ih]
      constructor
      · rintro ⟨-, ht, -⟩
        exact absurd ht (by simp)
      · rintro ⟨hm, ht, pre, r2, hsplit, hok⟩
        cases pre with
        | nil =>
          simp only [List.nil_append, List.cons.injEq] at hsplit
          rw [hfin.mpr hsplit.1] at hcl
          exact absurd hcl (by simp)
        | cons p pre2 =>
          simp only [List.cons_append, List.cons.injEq] at hsplit
          obtain ⟨n2, hn2⟩ := hok p (by simp)
          rw [← hsplit.1] at hn2
          rw [hcl] at hn2
          exact absurd hn2 (by simp)
    | finishedLine =>
      have hl : l = "FINISHED".data := hfin.mp hcl
      simp only [verifyLoop, hcl]
      by_cases hmt : many = [] ∧ timed = []
      · rw [if_pos hmt]
        constructor
        · intro
          exact ⟨hmt.1, hmt.2, [], rest, by rw [hl]; rfl, by simp⟩
        · intro
          rfl
      · rw [if_neg hmt]
        constructor
        · intro h
          exact absurd h (by simp)
        · rintro ⟨hm, ht, -⟩
          exact absurd ⟨hm, ht⟩ hmt
    | fatalLine =>
      simp only [verifyLoop, hcl]
      constructor
      · intro h
        exact absurd h (by simp)
      · rintro ⟨hm, ht, pre, r2, hsplit, hok⟩
        cases pre with
        | nil =>
          simp only [List.nil_append, List.cons.injEq] at hsplit
          rw [hfin.mpr hsplit.1] at hcl
          exact absurd hcl (by simp)
        | cons p pre2 =>
          simp only [List.cons_append, List.cons.injEq] at hsplit
          obtain ⟨n2, hn2⟩ := hok p (by simp)
          rw [← hsplit.1] at hn2
          rw [hcl] at hn2
          exact absurd hn2 (by simp)

/-- The ERROR index carried by a line, if any. -/
def errNumOf (l : List Char) : Option Nat :=
  match classifyLine l with
  | LineClass.errorLine n => some n
  | _ => none

/-- The TIMEOUT index carried by a line, if any. -/
def timeoutNumOf (l : List Char) : Option Nat :=
  match classifyLine l with
  | LineClass.timeoutLine n => some n
  | _ => none

lemma verifyLoop_failure (lines : List (List Char))
    (many0 timed0 many timed : List Nat)
    (h : verifyLoop lines many0 timed0 = VerifyOutcome.failure many timed) :
    ∃ pre rest, lines = pre ++ "FINISHED".data :: rest ∧
      many = many0 ++ pre.filterMap errNumOf ∧
      timed = timed0 ++ pre.filterMap timeoutNumOf ∧
      ¬ (many = [] ∧ timed = []) := by
  induction lines generalizing many0 timed0 with
  | nil =>
    exact absurd h (by simp [verifyLoop])
  | cons l rest ih =>
    have hfin := classify_finished_iff l
    cases hcl : classifyLine l with
    | okLine n =>
      rw [verifyLoop, hcl] at h
      obtain ⟨pre, r2, hsplit, hm, ht, hne⟩ := ih _ _ h
      refine ⟨l :: pre, r2, by rw [hsplit]; rfl, ?_, ?_, hne⟩
      · rw [List.filterMap_cons]
        have : errNumOf l = none := by simp [errNumOf, hcl]
        rw [this, hm]
      · rw [List.filterMap_cons]
        have : timeoutNumOf l = none := by simp [timeoutNumOf, hcl]
        rw [this, ht]
    | errorLine n =>
      rw [verifyLoop, hcl] at h
      obtain ⟨pre, r2, hsplit, hm, ht, hne⟩ := ih _ _ h
      refine ⟨l :: pre, r2, by rw [hsplit]; rfl, ?_, ?_, hne⟩
      · rw [List.filterMap_cons]
        have : errNumOf l = some n := by simp [errNumOf, hcl]
        rw [this, hm, List.append_assoc]
        rfl
      · rw [List.filterMap_cons]
        have : timeoutNumOf l = none := by simp [timeoutNumOf, hcl]
        rw [this, ht]
    | timeoutLine n =>
      rw [verifyLoop, hcl] at h
      obtain ⟨pre, r2, hsplit, hm, ht, hne⟩ := ih _ _ h
      refine ⟨l :: pre, r2, by rw [hsplit]; rfl, ?_, ?_, hne⟩
      · rw [List.filterMap_cons]
        have : errNumOf l = none := by simp [errNumOf, hcl]
        rw [this, hm]
      · rw [List.filterMap_cons]
        have : timeoutNumOf l = some n := by simp [timeoutNumOf, hcl]
        rw [this, ht, List.append_assoc]
        rfl
    | finishedLine =>
      rw [verifyLoop, hcl] at h
      by_cases hmt : many0 = [] ∧ timed0 = []
      · rw [if_pos hmt] at h
        exact absurd h (by simp)
      · rw [if_neg hmt] at h
        have h2 : many0 = many ∧ timed0 = timed := by
          cases h
          exact ⟨rfl, rfl⟩
        refine ⟨[], rest, by rw [hfin.mp hcl]; rfl, ?_, ?_, ?_⟩
        · simp [h2.1]
        · simp [h2.2]
        · rw [← h2.1, ← h2.2]
          exact hmt
    | fatalLine =>
      rw [verifyLoop, hcl] at h
      exact absurd h (by simp)

lemma mem_sortedInsertStr (x s : String) (l : List String) :
    x ∈ sortedInsertStr s l ↔ x = s ∨ x ∈ l := by
  induction l with
  | nil => simp [sortedInsertStr]
  | cons y ys ih =>
    simp only [sortedInsertStr]
    split
    · simp
    · split
      · rename_i hlt heq
        subst heq
        simp only [List.mem_cons]
        constructor
        · exact fun h => Or.inr h
        · rintro (rfl | h)
          · exact Or.inl rfl
          · exact h
      · simp [ih]
        tauto

lemma mem_foldl_sortedInsertStr (x : String) (idxs : List Nat)
    (f : Nat → String) (acc : List String) :
    x ∈ idxs.foldl (fun acc i => sortedInsertStr (f i) acc) acc ↔
      x ∈ acc ∨ ∃ i ∈ idxs, f i = x := by
  induction idxs generalizing acc with
  | nil => simp
  | cons i idxs2 ih =>
    simp only [List.foldl_cons, ih, mem_sortedInsertStr, List.mem_cons]
    constructor
    · rintro ((rfl | h) | ⟨j, hj, hf⟩)
      · exact Or.inr ⟨i, Or.inl rfl, rfl⟩
      · exact Or.inl h
      · exact Or.inr ⟨j, Or.inr hj, hf⟩
    · rintro (h | ⟨j, rfl | hj, hf⟩)
      · exact Or.inl (Or.inr h)
      · exact Or.inl (Or.inl hf.symm)
      · exact Or.inr ⟨j, hj, hf⟩

lemma sorted_sortedInsertStr (s : String) (l : List String)
    (h : l.Sorted (· < ·)) : (sortedInsertStr s l).Sorted (· < ·) := by
  induction l with
  | nil => simp [sortedInsertStr]
  | cons x xs ih =>
    rw [List.sorted_cons] at h
    simp only [sortedInsertStr]
    split
    · rename_i hlt
      rw [List.sorted_cons]
      refine ⟨?_, List.sorted_cons.mpr h⟩
      intro b hb
      rcases List.mem_cons.mp hb with rfl | hb2
      · exact hlt
      · exact lt_trans hlt (h.1 b hb2)
    · split
      · rename_i hlt heq
        subst heq
        exact List.sorted_cons.mpr h
      · rename_i hlt hne
        have hxs : x < s := lt_of_le_of_ne (le_of_not_lt hlt) (Ne.symm hne)
        rw [List.sorted_cons]
        refine ⟨?_, ih h.2⟩
        intro b hb
        rcases (mem_sortedInsertStr b s xs).mp hb with rfl | hb2
        · exact hxs
        · exact h.1 b hb2

lemma sorted_uniqueComponentNames
    (pol_systems : List PolynomialSystemFixedSignal) (idxs : List Nat) :
    (uniqueComponentNames pol_systems idxs).Sorted (· < ·) := by
  rw [uniqueComponentNames]
  have hgen : ∀ (l : List Nat) (acc : List String), acc.Sorted (· < ·) →
      (l.foldl (fun acc i =>
        sortedInsertStr (pol_systems.getD i defaultPolSystem).component_name
          acc) acc).Sorted (· < ·) := by
    intro l
    induction l with
    | nil => exact fun acc h => h
    | cons i l2 ih =>
      intro acc hacc
      exact ih _ (sorted_sortedInsertStr _ _ hacc)
  exact hgen idxs [] (by simp)

/-- C4: reading the CAS output stream, the driver returns true iff it reads
a `FINISHED` line with only `OK: N` lines before it; on `FINISHED` after at
least one `ERROR`/`TIMEOUT` it returns false carrying exactly the `ERROR`
and `TIMEOUT` indices read, and the report groups the failed obligations by
containing component — the reported names are the distinct component names
of the failed obligations, sorted and duplicate-free, with their counts;
every line other than `OK: N`, `ERROR: N`, `TIMEOUT: N`, `FINISHED` is
fatal. -/
theorem claim_C4 :
    (∀ lines, verify_pol_systems_outcome lines = VerifyOutcome.success ↔
      ∃ pre rest, lines = pre ++ "FINISHED".data :: rest ∧
        ∀ l ∈ pre, ∃ n, classifyLine l = LineClass.okLine n) ∧
    (∀ lines many timed,
      verify_pol_systems_outcome lines = VerifyOutcome.failure many timed →
        (many ≠ [] ∨ timed ≠ []) ∧ ∃ pre rest,
          lines = pre ++ "FINISHED".data :: rest ∧
            many = pre.filterMap errNumOf ∧
            timed = pre.filterMap timeoutNumOf) ∧
    (∀ systems idxs s, s ∈ uniqueComponentNames systems idxs ↔
      ∃ idx ∈ idxs, (systems.getD idx defaultPolSystem).component_name = s) ∧
    (∀ systems idxs, (uniqueComponentNames systems idxs).Sorted (· < ·) ∧
      (uniqueComponentNames systems idxs).Nodup) ∧
    (∀ systems idxs reason,
      display_unverified_modules systems idxs reason =
        "Failed to verify due to " ++ reason ++ " " ++
        natToDecimal idxs.length ++ " polynomial systems in " ++
        natToDecimal (uniqueComponentNames systems idxs).length ++
        " components: [" ++
        joinSep ", " ((uniqueComponentNames systems idxs).map (fun s =>
          s ++ ": " ++
            (alookupStr s (componentTemplateMap systems idxs)).getD "")) ++
        "]") ∧
    (∀ l, classifyLine l = LineClass.fatalLine ↔ ¬ GoodLineShape l) ∧
    (∀ l rest many timed, classifyLine l = LineClass.fatalLine →
      verifyLoop (l :: rest) many timed = VerifyOutcome.fatal) := by
  refine ⟨?_, ?_, ?_, ?_, ?_, classify_fatal_iff, ?_⟩
  · intro lines
    rw [verify_pol_systems_outcome, verifyLoop_success_iff]
    simp
  · intro lines many timed h
    obtain ⟨pre, rest, hsplit, hm, ht, hne⟩ :=
      verifyLoop_failure lines [] [] many timed h
    rw [List.nil_append] at hm ht
    refine ⟨?_, pre, rest, hsplit, hm, ht⟩
    by_cases h1 : many = []
    · right
      intro h2
      exact hne ⟨h1, h2⟩
    · exact Or.inl h1
  · intro systems idxs s
    rw [uniqueComponentNames, mem_foldl_sortedInsertStr]
    simp only [List.not_mem_nil, false_or]
  · intro systems idxs
    have hs := sorted_uniqueComponentNames systems idxs
    exact ⟨hs, hs.nodup⟩
  · intro systems idxs reason
    rfl
  · intro l rest many timed h
    simp [verifyLoop, h]

/-- Witness for C4: a concrete accepted stream and a concrete fatal line. -/
theorem claim_C4_witness :
    verify_pol_systems_outcome ["OK: 0".data, "FINISHED".data] =
        VerifyOutcome.success ∧
      verifyLoop ["Boom".data] [] [] = VerifyOutcome.fatal := by
  constructor
  · refine (claim_C4.1 _).mpr ⟨["OK: 0".data], [], rfl, ?_⟩
    intro l hl
    rw [List.mem_singleton] at hl
    subst hl
    exact ⟨0, by decide⟩
  · exact claim_C4.2.2.2.2.2.2 "Boom".data [] [] [] (by decide)

/-! ### Symbol-table loader
(src/verification/src/input_data.rs, lines 93-110: `parse_signal_name_map`) -/

/-- Embedding of `str::split` at a separator character. -/
def splitOnChar (c : Char) : List Char → List (List Char)
  | [] => [[]]
  | x :: xs =>
    if x = c then [] :: splitOnChar c xs
    else
      match splitOnChar c xs with
      | [] => [[x]]
      | y :: ys => (x :: y) :: ys

/-- Embedding of `str::split_once` at a separator character. -/
def splitOnceChar (c : Char) : List Char → Option (List Char × List Char)
  | [] => none
  | x :: xs =>
    if x = c then some ([], xs)
    else (splitOnceChar c xs).map (fun q => (x :: q.1, q.2))

/-- Processing of one `circuit_signals.sym` line: split into exactly four
comma-separated columns, strip everything up to the first `.` of the fourth
column (the `split_once` whose `unwrap` panics when there is no dot), parse
the first column as the signal index (`?` on failure).  Any failure —
panic or error — is `none`. -/
def parse_signal_line (l : List Char) : Option (Nat × List Char) :=
  match splitOnChar ',' l with
  | [id, _, _, fully_qualified_name] =>
    match splitOnceChar '.' fully_qualified_name with
    | some (_, name) =>
      match parseUsizeChars id with
      | some n => some (n, name)
      | none => none
    | none => none
  | _ => none

/-- Embedding of `parse_signal_name_map`: fold the per-line processing over
the file's lines, inserting into the map. -/
def parse_signal_name_map (lines : List (List Char)) :
    Option (List (Nat × List Char)) :=
  lines.foldlM
    (fun m l => (parse_signal_line l).map (fun q => mapInsert m q.1 q.2)) []

lemma splitOnChar_append (c : Char) (xs ys : List Char) (h : c ∉ xs) :
    splitOnChar c (xs ++ c :: ys) = xs :: splitOnChar c ys := by
  induction xs with
  | nil => simp [splitOnChar]
  | cons x xs2 ih =>
    have hx : ¬ (x = c) := fun hc => h (by rw [hc]; simp)
    have h2 : c ∉ xs2 := fun hc => h (List.mem_cons_of_mem _ hc)
    simp only [List.cons_append]
    rw [splitOnChar, if_neg hx, ih h2]

lemma splitOnChar_no_sep (c : Char) (xs : List Char) (h : c ∉ xs) :
    splitOnChar c xs = [xs] := by
  induction xs with
  | nil => rfl
  | cons x xs2 ih =>
    have hx : ¬ (x = c) := fun hc => h (by rw [hc]; simp)
    have h2 : c ∉ xs2 := fun hc => h (List.mem_cons_of_mem _ hc)
    simp only [splitOnChar, if_neg hx, ih h2]

lemma splitOnceChar_main (rest : List Char) :
    splitOnceChar '.' (['m', 'a', 'i', 'n', '.'] ++ rest) =
      some (['m', 'a', 'i', 'n'], rest) := by
  show splitOnceChar '.' ('m' :: 'a' :: 'i' :: 'n' :: '.' :: rest) = _
  simp only [splitOnceChar, if_neg (by decide : ¬ ('m' = '.')),
    if_neg (by decide : ¬ ('a' = '.')), if_neg (by decide : ¬ ('i' = '.')),
    if_neg (by decide : ¬ ('n' = '.')), if_pos rfl, Option.map_some]
  rfl

lemma parseUsize_no_comma (l : List Char) (n : Nat)
    (h : parseUsizeChars l = some n) : ',' ∉ l := by
  simp only [parseUsizeChars] at h
  split at h
  · rename_i hplus
    split at h
    · rename_i hcond
      obtain ⟨hne, hall⟩ := hcond
      rw [List.all_eq_true] at hall
      intro hmem
      cases l with
      | nil => simp at hplus
      | cons x xs =>
        simp only [List.head?_cons, Option.some.injEq] at hplus
        subst hplus
        simp only [List.tail_cons] at hall
        rcases List.mem_cons.mp hmem with hcx | hcx
        · exact absurd hcx (by decide)
        · exact absurd (hall ',' hcx) (by decide)
    · exact absurd h (by simp)
  · rename_i hplus
    split at h
    · rename_i hcond
      obtain ⟨hne, hall⟩ := hcond
      rw [List.all_eq_true] at hall
      intro hmem
      exact absurd (hall ',' hmem) (by decide)
    · exact absurd h (by simp)

lemma alookup_filter_ne {α : Type} (j k : Nat) (m : List (Nat × α))
    (h : j ≠ k) :
    alookup j (m.filter (fun p => p.1 ≠ k)) = alookup j m := by
  induction m with
  | nil => rfl
  | cons p rest ih =>
    obtain ⟨pk, pv⟩ := p
    by_cases hp : pk = k
    · rw [List.filter_cons_of_neg (by simp [hp])]
      rw [ih, alookup_cons,
        if_neg (by rw [hp]; exact fun hc => h hc.symm)]
    · rw [List.filter_cons_of_pos (by simp [hp])]
      rw [alookup_cons, alookup_cons]
      by_cases hpj : pk = j
      · rw [if_pos hpj, if_pos hpj]
      · rw [if_neg hpj, if_neg hpj, ih]

lemma alookup_mapInsert {α : Type} (m : List (Nat × α)) (k j : Nat) (v : α) :
    alookup j (mapInsert m k v) = if k = j then some v else alookup j m := by
  rw [mapInsert, alookup_cons]
  by_cases hkj : k = j
  · rw [if_pos hkj, if_pos hkj]
  · rw [if_neg hkj, if_neg hkj]
    exact alookup_filter_ne j k m (fun hc => hkj hc.symm)

lemma parse_signal_line_spec (idChars c2 c3 rest : List Char) (idVal : Nat)
    (hid : parseUsizeChars idChars = some idVal)
    (hnc2 : ',' ∉ c2) (hnc3 : ',' ∉ c3) (hnc4 : ',' ∉ rest) :
    parse_signal_line
        (idChars ++ ',' :: (c2 ++ ',' :: (c3 ++ ',' ::
          ("main.".data ++ rest)))) = some (idVal, rest) := by
  have h4 : ',' ∉ "main.".data ++ rest := by
    intro hm
    rcases List.mem_append.mp hm with hm2 | hm2
    · exact absurd hm2 (by decide)
    · exact hnc4 hm2
  rw [parse_signal_line,
    splitOnChar_append ',' idChars _ (parseUsize_no_comma _ _ hid),
    splitOnChar_append ',' c2 _ hnc2,
    splitOnChar_append ',' c3 _ hnc3,
    splitOnChar_no_sep ',' _ h4]
  simp only [splitOnceChar_main, hid]

lemma parse_map_lookup_aux (idVal : Nat) (rest : List Char)
    (lines : List (List Char)) :
    ∀ m0 m,
      lines.foldlM (fun m l => (parse_signal_line l).map
        (fun q => mapInsert m q.1 q.2)) m0 = some m →
      (∀ l ∈ lines, ∀ q, parse_signal_line l = some q → q.1 = idVal →
        q.2 = rest) →
      (alookup idVal m0 = some rest ∨
        ∃ l ∈ lines, parse_signal_line l = some (idVal, rest)) →
      alookup idVal m = some rest := by
  induction lines with
  | nil =>
    intro m0 m h _ hd
    cases h
    rcases hd with hd | ⟨l, hl, -⟩
    · exact hd
    · cases hl
  | cons l ls ih =>
    intro m0 m h huniq hd
    rw [List.foldlM_cons] at h
    cases hp : parse_signal_line l with
    | none =>
      rw [hp] at h
      exact Option.noConfusion h
    | some q =>
      rw [hp] at h
      have h2 : ls.foldlM (fun m l => (parse_signal_line l).map
          (fun q => mapInsert m q.1 q.2)) (mapInsert m0 q.1 q.2) =
          some m := h
      apply ih _ _ h2 (fun l2 hl2 => huniq l2 (List.mem_cons_of_mem _ hl2))
      rcases hd with hd | ⟨l2, hl2, hp2⟩
      · left
        rw [alookup_mapInsert]
        by_cases hq : q.1 = idVal
        · rw [if_pos hq, huniq l (by simp) q hp hq]
        · rw [if_neg hq]
          exact hd
      · rcases List.mem_cons.mp hl2 with rfl | hl3
        · rw [hp] at hp2
          cases hp2
          left
          rw [alookup_mapInsert, if_pos rfl]
        · right
          exact ⟨l2, hl3, hp2⟩

/-- C8: for every symbol-table line `id,_,_,qualified_name` whose fourth
column is `main.` followed by `rest`, `parse_signal_name_map` maps the
parsed id to `rest` — the qualified name with the leading `main.` prefix
stripped — using only the first and fourth comma-separated columns (the
second and third are arbitrary and do not appear in the conclusion). -/
theorem claim_C8 (lines : List (List Char)) (m : List (Nat × List Char))
    (idChars c2 c3 rest : List Char) (idVal : Nat)
    (hparse : parse_signal_name_map lines = some m)
    (hid : parseUsizeChars idChars = some idVal)
    (hnc2 : ',' ∉ c2) (hnc3 : ',' ∉ c3) (hnc4 : ',' ∉ rest)
    (hmem : (idChars ++ ',' :: (c2 ++ ',' :: (c3 ++ ',' ::
      ("main.".data ++ rest)))) ∈ lines)
    (huniq : ∀ l ∈ lines, ∀ q, parse_signal_line l = some q →
      q.1 = idVal → q.2 = rest) :
    alookup idVal m = some rest :=
  parse_map_lookup_aux idVal rest lines [] m hparse huniq
    (Or.inr ⟨_, hmem,
      parse_signal_line_spec idChars c2 c3 rest idVal hid hnc2 hnc3 hnc4⟩)

/-- Witness for C8 at a concrete one-line symbol table. -/
theorem claim_C8_witness :
    alookup 7 [(7, "out".data)] = some "out".data := by
  apply claim_C8 ["7,w,1,main.out".data] [(7, "out".data)]
    "7".data "w".data "1".data "out".data 7
  · decide
  · decide
  · decide
  · decide
  · decide
  · decide
  · intro l hl q hq hq1
    rw [List.mem_singleton] at hl
    subst hl
    rw [(by decide :
      parse_signal_line ("7,w,1,main.out".data) = some (7, "out".data))] at hq
    cases hq
    rfl

/-! ### Verification graph construction
(src/verification/src/verification_graph.rs, `VerificationGraph::new` and
the two construction-time propagation helpers) -/

/-- The frame's own output signals, in loop order
(verification_graph.rs:98-103). -/
def frameOutputs (tc : TreeConstraintsFrame) : List Nat :=
  (List.range tc.number_outputs).map (fun idx => idx + tc.initial_signal)

/-- The frame's declared input signals (verification_graph.rs:108-114). -/
def frameInputs (tc : TreeConstraintsFrame) : List Nat :=
  (List.range tc.number_inputs).map
    (fun idx => idx + tc.number_outputs + tc.initial_signal)

/-- The frame's intermediate signals (verification_graph.rs:117-127). -/
def frameIntermediates (tc : TreeConstraintsFrame) : List Nat :=
  (List.range (tc.number_signals - tc.number_outputs - tc.number_inputs)).map
    (fun idx =>
      idx + tc.number_outputs + tc.number_inputs + tc.initial_signal)

/-- Input ports of one subcomponent (verification_graph.rs:145-151). -/
def subInputPorts (c : SubCmpData) : List Nat :=
  (List.range c.number_inputs).map
    (fun idx => idx + c.number_outputs + c.initial_signal)

/-- Output ports of one subcomponent (verification_graph.rs:154-161). -/
def subOutputPorts (c : SubCmpData) : List Nat :=
  (List.range c.number_outputs).map (fun idx => idx + c.initial_signal)

/-- Node kinds (`verification_graph::Node`). -/
inductive Node where
  | InputSignal
  | OutputSignal
  | IntermediateSignal
  | SubComponentInputSignal (cmp : Nat)
  | SubComponentOutputSignal (cmp : Nat)
deriving DecidableEq, Repr

abbrev NodeMap := List (Nat × Node)

/-- A Rust `for` loop inserting every listed signal with the same tag. -/
def insertManyNodes (m : NodeMap) (ks : List Nat) (v : Node) : NodeMap :=
  ks.foldl (fun acc s => mapInsert acc s v) m

/-- The two port loops of one subcomponent iteration: inputs are tagged with
the metadata `node_id` (`component_index` in the source), outputs with the
enumeration index `cmp_index` (verification_graph.rs:139-161). -/
def addSubcomponentNodes (m : NodeMap) (cmp_index : Nat) (c : SubCmpData) :
    NodeMap :=
  insertManyNodes
    (insertManyNodes m (subInputPorts c)
      (Node.SubComponentInputSignal c.node_id))
    (subOutputPorts c) (Node.SubComponentOutputSignal cmp_index)

/-- The `enumerate` loop over the subcomponents. -/
def addAllSubcomponentNodes (m : NodeMap) (cmp_index : Nat) :
    List SubCmpData → NodeMap
  | [] => m
  | c :: rest =>
    addAllSubcomponentNodes (addSubcomponentNodes m cmp_index c)
      (cmp_index + 1) rest

/-- `verification_graph::SubComponent` (sets embedded as ascending lists). -/
structure SubComponent where
  input_signals : List Nat
  output_signals : List Nat
  not_yet_fixed_inputs : List Nat
deriving DecidableEq, Repr

/-- The subcomponents map, keyed by enumeration index
(verification_graph.rs:163-170). -/
def buildSubcomponents (cmp_index : Nat) :
    List SubCmpData → List (Nat × SubComponent)
  | [] => []
  | c :: rest =>
    (cmp_index,
      { input_signals := subInputPorts c
        output_signals := subOutputPorts c
        not_yet_fixed_inputs := subInputPorts c }) ::
      buildSubcomponents (cmp_index + 1) rest

/-- `verification_graph::SafeAssignment`. -/
structure SafeAssignment where
  lhs_signal : Nat
  rhs_signals : List Nat
  associated_constraint : Nat
deriving DecidableEq, Repr

/-- `verification_graph::UnsafeConstraint`. -/
structure UnsafeConstraint where
  signals : List Nat
  associated_constraint : Nat
deriving DecidableEq, Repr

/-- The safe-assignment edges, one per `are_double_arrow` entry, with the
declared LHS and the constraint's remaining signals as RHS
(verification_graph.rs:180-203). -/
def buildSafeAssignments (context : InputDataContextView) :
    List SafeAssignment :=
  context.tree_constraints.are_double_arrow.map (fun p =>
    { lhs_signal := p.2
      rhs_signals := setErase (context.constraint_storage p.1).signalsSet p.2
      associated_constraint := p.1 })

/-- The `incoming_safe_assignments` inserts, in loop order; the inserted
index is `safe_assignments.len()` at push time, i.e. the position. -/
def buildIncomingFrom (i : Nat) (m : List (Nat × Nat)) :
    List (Nat × Nat) → List (Nat × Nat)
  | [] => m
  | p :: rest => buildIncomingFrom (i + 1) (mapInsert m p.2 i) rest

/-- One `outgoing_safe_assignments.entry(s).or_insert(∅).insert(i)`. -/
def addIndexAt (m : List (Nat × List Nat)) (s i : Nat) :
    List (Nat × List Nat) :=
  mapInsert m s (setInsert i ((alookup s m).getD []))

/-- The `outgoing_safe_assignments` inserts of the same loop
(verification_graph.rs:197-202). -/
def buildOutgoingFrom (context : InputDataContextView) (i : Nat)
    (m : List (Nat × List Nat)) : List (Nat × Nat) → List (Nat × List Nat)
  | [] => m
  | p :: rest =>
    buildOutgoingFrom context (i + 1)
      (((setErase (context.constraint_storage p.1).signalsSet p.2).foldl
        (fun acc s => addIndexAt acc s i) m)) rest

/-- The frame's constraint index range
`initial_constraint..initial_constraint + no_constraints`. -/
def constraintRange (tc : TreeConstraintsFrame) : List Nat :=
  (List.range tc.no_constraints).map (fun i => tc.initial_constraint + i)

/-- The constraint indices that are not marked as double arrows
(verification_graph.rs:209-210). -/
def unsafeConstraintIndices (tc : TreeConstraintsFrame) : List Nat :=
  (constraintRange tc).filter
    (fun i => !(tc.are_double_arrow.map Prod.fst).contains i)

/-- The unsafe-constraint hyper-edges (verification_graph.rs:208-225). -/
def buildUnsafeConstraints (context : InputDataContextView) :
    List UnsafeConstraint :=
  (unsafeConstraintIndices context.tree_constraints).map (fun i =>
    { signals := (context.constraint_storage i).signalsSet
      associated_constraint := i })

/-- The `edge_constraints` inserts of the unsafe-edge loop. -/
def buildEdgeConstraints (context : InputDataContextView) :
    List (Nat × List Nat) :=
  (buildUnsafeConstraints context).enum.foldl
    (fun m q => q.2.signals.foldl (fun acc s => addIndexAt acc s q.1) m) []

/-- Embedding of `propagate_fixed_node_in_safe_assignment`: fix the LHS of a
safe assignment whose RHS has no signals. -/
def propagate_fixed_node_in_safe_assignment (fixed_nodes : List Nat)
    (assignment : SafeAssignment) : List Nat :=
  if assignment.rhs_signals.isEmpty then
    setInsert assignment.lhs_signal fixed_nodes
  else fixed_nodes

/-- Embedding of `propagate_fixed_node_in_unsafe_constraint` as called at
construction time: the substitution list is still empty
(verification_graph.rs:241), so `apply_fixed_nodes_substitution` is the
identity and the constraint is inspected as stored.  The source unwraps the
C-coefficient lookup; on fixed-form constraints (hypothesis of the theorems
below) the lookup always succeeds, and we default to 0 — never fixing —
otherwise. -/
def propagate_fixed_node_in_unsafe_constraint
    (context : InputDataContextView) (fixed_nodes : List Nat)
    (unsafe_constraint : UnsafeConstraint) : List Nat :=
  match unsafe_constraint.signals with
  | [signal] =>
    let constraint :=
      context.constraint_storage unsafe_constraint.associated_constraint
    if constraint.isLinear = true ∧
        (constraint.coefficientInC signal).getD 0 ≠ 0 then
      setInsert signal fixed_nodes
    else fixed_nodes
  | _ => fixed_nodes

/-- `verification_graph::VerificationGraph` (the `substitutions` list, empty
at construction, is omitted). -/
structure VerificationGraph where
  nodes : NodeMap
  incoming_safe_assignments : List (Nat × Nat)
  outgoing_safe_assignments : List (Nat × List Nat)
  edge_constraints : List (Nat × List Nat)
  subcomponents : List (Nat × SubComponent)
  safe_assignments : List SafeAssignment
  unsafe_constraints : List UnsafeConstraint
  fixed_nodes : List Nat

/-- Embedding of `VerificationGraph::new`. -/
def VerificationGraph.new (context : InputDataContextView) :
    VerificationGraph :=
  let tc := context.tree_constraints
  let baseNodes :=
    insertManyNodes
      (insertManyNodes
        (insertManyNodes [] (frameOutputs tc) Node.OutputSignal)
        (frameInputs tc) Node.InputSignal)
      (frameIntermediates tc) Node.IntermediateSignal
  let nodes := addAllSubcomponentNodes baseNodes 0 tc.subcomponents
  let subcomponents := buildSubcomponents 0 tc.subcomponents
  let safe_assignments := buildSafeAssignments context
  let incoming_safe_assignments := buildIncomingFrom 0 [] tc.are_double_arrow
  let outgoing_safe_assignments :=
    buildOutgoingFrom context 0 [] tc.are_double_arrow
  let unsafe_constraints := buildUnsafeConstraints context
  let edge_constraints := buildEdgeConstraints context
  let fixed0 := setOfList (frameInputs tc)
  let fixed1 :=
    safe_assignments.foldl propagate_fixed_node_in_safe_assignment fixed0
  let fixed_nodes :=
    unsafe_constraints.foldl
      (propagate_fixed_node_in_unsafe_constraint context) fixed1
  { nodes := nodes
    incoming_safe_assignments := incoming_safe_assignments
    outgoing_safe_assignments := outgoing_safe_assignments
    edge_constraints := edge_constraints
    subcomponents := subcomponents
    safe_assignments := safe_assignments
    unsafe_constraints := unsafe_constraints
    fixed_nodes := fixed_nodes }

lemma contains_false_iff (l : List Nat) (x : Nat) :
    l.contains x = false ↔ x ∉ l := by
  rw [Bool.eq_false_iff]
  exact not_congr List.elem_iff

instance (cst : Constraint) : Decidable cst.fixedForm :=
  decidable_of_iff (¬ (cst.a = [] ∨ cst.b = []) ∨ (cst.a = [] ∧ cst.b = []))
    (by rw [Constraint.fixedForm]; tauto)

lemma mem_foldl_of_step {β : Type} (f : List Nat → β → List Nat)
    (P : β → Nat → Prop)
    (hstep : ∀ acc b s, s ∈ f acc b ↔ s ∈ acc ∨ P b s) :
    ∀ (l : List β) (acc : List Nat) (s : Nat),
      s ∈ l.foldl f acc ↔ s ∈ acc ∨ ∃ b ∈ l, P b s := by
  intro l
  induction l with
  | nil => simp
  | cons b rest ih =>
    intro acc s
    rw [List.foldl_cons, ih, hstep]
    simp only [List.mem_cons]
    constructor
    · rintro ((h | h) | ⟨b2, hb2, hp⟩)
      · exact Or.inl h
      · exact Or.inr ⟨b, Or.inl rfl, h⟩
      · exact Or.inr ⟨b2, Or.inr hb2, hp⟩
    · rintro (h | ⟨b2, rfl | hb2, hp⟩)
      · exact Or.inl (Or.inl h)
      · exact Or.inl (Or.inr hp)
      · exact Or.inr ⟨b2, hb2, hp⟩

lemma mem_propagate_safe_step (acc : List Nat) (a : SafeAssignment)
    (s : Nat) :
    s ∈ propagate_fixed_node_in_safe_assignment acc a ↔
      s ∈ acc ∨ (a.rhs_signals = [] ∧ a.lhs_signal = s) := by
  rw [propagate_fixed_node_in_safe_assignment]
  by_cases he : a.rhs_signals.isEmpty
  · rw [if_pos he, mem_setInsert]
    rw [List.isEmpty_iff] at he
    constructor
    · rintro (rfl | h)
      · exact Or.inr ⟨he, rfl⟩
      · exact Or.inl h
    · rintro (h | ⟨-, rfl⟩)
      · exact Or.inr h
      · exact Or.inl rfl
  · rw [if_neg he]
    rw [List.isEmpty_iff] at he
    constructor
    · exact Or.inl
    · rintro (h | ⟨hcon, -⟩)
      · exact h
      · exact absurd hcon he

lemma mem_propagate_unsafe_step (context : InputDataContextView)
    (acc : List Nat) (u : UnsafeConstraint) (s : Nat) :
    s ∈ propagate_fixed_node_in_unsafe_constraint context acc u ↔
      s ∈ acc ∨ (u.signals = [s] ∧
        (context.constraint_storage u.associated_constraint).isLinear =
          true ∧
        ((context.constraint_storage
          u.associated_constraint).coefficientInC s).getD 0 ≠ 0) := by
  rcases hsig : u.signals with - | ⟨s1, - | ⟨s2, tl⟩⟩
  · rw [propagate_fixed_node_in_unsafe_constraint, hsig]
    simp [hsig]
  · rw [propagate_fixed_node_in_unsafe_constraint, hsig]
    simp only [hsig, List.cons.injEq, and_true]
    split
    · rename_i hcond
      rw [mem_setInsert]
      constructor
      · rintro (rfl | h)
        · exact Or.inr ⟨rfl, hcond.1, hcond.2⟩
        · exact Or.inl h
      · rintro (h | ⟨rfl, -, -⟩)
        · exact Or.inr h
        · exact Or.inl rfl
    · rename_i hcond
      constructor
      · exact Or.inl
      · rintro (h | ⟨rfl, h1, h2⟩)
        · exact h
        · exact absurd ⟨h1, h2⟩ hcond
  · rw [propagate_fixed_node_in_unsafe_constraint, hsig]
    simp [hsig]

/-- C1: for every frame, the fixed-node set computed by
`VerificationGraph::new` is exactly the union of (i) the frame's declared
input signals, (ii) the LHS of every safe assignment whose RHS signal set is
empty, and (iii) the single participating signal of every unsafe constraint
whose stored constraint (the construction-time substitution list is empty)
is linear with a non-zero coefficient on that signal; in particular every
declared input is fixed at initialisation.  The fixed-form hypothesis
delimits the inputs on which the source's `unwrap` cannot panic. -/
theorem claim_C1 (context : InputDataContextView)
    (hWF : ∀ i ∈ constraintRange context.tree_constraints,
      (context.constraint_storage i).fixedForm)
    (s : Nat) :
    s ∈ (VerificationGraph.new context).fixed_nodes ↔
      s ∈ frameInputs context.tree_constraints ∨
      (∃ p ∈ context.tree_constraints.are_double_arrow, p.2 = s ∧
        setErase (context.constraint_storage p.1).signalsSet p.2 = []) ∨
      (∃ i ∈ constraintRange context.tree_constraints,
        i ∉ context.tree_constraints.are_double_arrow.map Prod.fst ∧
        (context.constraint_storage i).signalsSet = [s] ∧
        (context.constraint_storage i).isLinear = true ∧
        ∃ q, (context.constraint_storage i).coefficientInC s = some q ∧
          q ≠ 0) := by
  have hmain : (VerificationGraph.new context).fixed_nodes =
      (buildUnsafeConstraints context).foldl
        (propagate_fixed_node_in_unsafe_constraint context)
        ((buildSafeAssignments context).foldl
          propagate_fixed_node_in_safe_assignment
          (setOfList (frameInputs context.tree_constraints))) := rfl
  rw [hmain,
    mem_foldl_of_step _ _ (mem_propagate_unsafe_step context),
    mem_foldl_of_step _ _ mem_propagate_safe_step,
    mem_setOfList]
  constructor
  · rintro ((hin | ⟨a, ha, hrhs, hlhs⟩) | ⟨u, hu, hsig, hlin, hco⟩)
    · exact Or.inl hin
    · obtain ⟨p, hp, rfl⟩ := List.mem_map.mp ha
      exact Or.inr (Or.inl ⟨p, hp, hlhs, hrhs⟩)
    · obtain ⟨i, hi, rfl⟩ := List.mem_map.mp hu
      obtain ⟨hirange, hina⟩ := List.mem_filter.mp hi
      refine Or.inr (Or.inr ⟨i, hirange, ?_, hsig, hlin, ?_⟩)
      · rw [Bool.not_eq_true'] at hina
        exact (contains_false_iff _ _).mp hina
      · cases hq : (context.constraint_storage i).coefficientInC s with
        | none =>
          rw [hq] at hco
          simp at hco
        | some q =>
          rw [hq] at hco
          simp only [Option.getD_some] at hco
          exact ⟨q, rfl, hco⟩
  · rintro (hin | ⟨p, hp, hlhs, hrhs⟩ | ⟨i, hirange, hina, hsig, hlin, q, hq, hq0⟩)
    · exact Or.inl (Or.inl hin)
    · refine Or.inl (Or.inr ⟨_, List.mem_map.mpr ⟨p, hp, rfl⟩, hrhs, hlhs⟩)
    · refine Or.inr ⟨⟨(context.constraint_storage i).signalsSet, i⟩,
        List.mem_map.mpr ⟨i, List.mem_filter.mpr ⟨hirange, ?_⟩, rfl⟩,
        hsig, hlin, ?_⟩
      · rw [Bool.not_eq_true', contains_false_iff]
        exact hina
      · rw [hq]
        simpa using hq0

/-- Witness for C1 at a concrete two-constraint frame: constraint 0 is the
safe assignment `s0 <== 3` (empty RHS) and constraint 1 the linear unsafe
constraint `4·s2 + 1 === 0`; signal 1 is the frame input. -/
theorem claim_C1_witness :
    (2 : Nat) ∈ (VerificationGraph.new
      { witness := fun _ => 0
        signal_name_map := fun n => "g" ++ natToDecimal n
        tree_constraints :=
          { no_constraints := 2, initial_constraint := 0
            number_inputs := 1, number_outputs := 1, number_signals := 3
            initial_signal := 0, are_double_arrow := [(0, 0)]
            subcomponents := [] }
        field := 101
        constraint_storage := fun i =>
          if i = 0 then ⟨[], [], [(0, 3)]⟩
          else if i = 1 then ⟨[], [], [(2, 4), (0, 1)]⟩
          else ⟨[], [], []⟩
        options := Options.default }).fixed_nodes := by
  apply (claim_C1 _ (by decide) 2).mpr
  exact Or.inr (Or.inr ⟨1, by decide, by decide, by decide, by decide,
    4, by decide, by decide⟩)

lemma buildIncomingFrom_isSome (l : List (Nat × Nat)) :
    ∀ (i : Nat) (m : List (Nat × Nat)) (s : Nat),
      (alookup s (buildIncomingFrom i m l)).isSome = true ↔
        (alookup s m).isSome = true ∨ ∃ p ∈ l, p.2 = s := by
  induction l with
  | nil =>
    intro i m s
    simp [buildIncomingFrom]
  | cons p rest ih =>
    intro i m s
    rw [buildIncomingFrom, ih, alookup_mapInsert]
    by_cases hp : p.2 = s
    · rw [if_pos hp]
      exact iff_of_true (Or.inl rfl)
        (Or.inr ⟨p, List.mem_cons_self _ _, hp⟩)
    · rw [if_neg hp]
      simp only [List.mem_cons]
      constructor
      · rintro (h | ⟨p2, hp2, he⟩)
        · exact Or.inl h
        · exact Or.inr ⟨p2, Or.inr hp2, he⟩
      · rintro (h | ⟨p2, rfl | hp2, he⟩)
        · exact Or.inl h
        · exact absurd he hp
        · exact Or.inr ⟨p2, hp2, he⟩

lemma buildIncomingFrom_value (l : List (Nat × Nat)) :
    ∀ (i : Nat) (m : List (Nat × Nat)) (s j : Nat),
      alookup s (buildIncomingFrom i m l) = some j →
        alookup s m = some j ∨
          ∃ t p, l[t]? = some p ∧ p.2 = s ∧ j = i + t := by
  induction l with
  | nil =>
    intro i m s j h
    exact Or.inl h
  | cons p rest ih =>
    intro i m s j h
    rw [buildIncomingFrom] at h
    rcases ih _ _ _ _ h with h2 | ⟨t, p2, ht, hp2, hj⟩
    · rw [alookup_mapInsert] at h2
      by_cases hp : p.2 = s
      · rw [if_pos hp] at h2
        cases h2
        exact Or.inr ⟨0, p, by simp, hp, by omega⟩
      · rw [if_neg hp] at h2
        exact Or.inl h2
    · exact Or.inr ⟨t + 1, p2, by simpa using ht, hp2, by omega⟩

/-- C6: one safe-assignment edge is created per `are_double_arrow` entry,
with the declared LHS and the constraint's remaining signals as RHS, and
`incoming_safe_assignments` maps each LHS signal to exactly one
safe-assignment index, which points at an edge with that LHS. -/
theorem claim_C6 (context : InputDataContextView) :
    (VerificationGraph.new context).safe_assignments.length =
        context.tree_constraints.are_double_arrow.length ∧
      (∀ i : Nat, (VerificationGraph.new context).safe_assignments[i]? =
        (context.tree_constraints.are_double_arrow[i]?).map (fun p =>
          ({ lhs_signal := p.2
             rhs_signals :=
               setErase (context.constraint_storage p.1).signalsSet p.2
             associated_constraint := p.1 } : SafeAssignment))) ∧
      (∀ s, (alookup s
          (VerificationGraph.new context).incoming_safe_assignments).isSome
          = true ↔
        ∃ p ∈ context.tree_constraints.are_double_arrow, p.2 = s) ∧
      (∀ s j, alookup s
          (VerificationGraph.new context).incoming_safe_assignments =
            some j →
        ∃ a, (VerificationGraph.new context).safe_assignments[j]? = some a ∧
          a.lhs_signal = s) := by
  have hsa : (VerificationGraph.new context).safe_assignments =
      buildSafeAssignments context := rfl
  have hin : (VerificationGraph.new context).incoming_safe_assignments =
      buildIncomingFrom 0 [] context.tree_constraints.are_double_arrow := rfl
  refine ⟨?_, ?_, ?_, ?_⟩
  · rw [hsa, buildSafeAssignments]
    exact List.length_map _ _
  · intro i
    rw [hsa, buildSafeAssignments, List.getElem?_map]
  · intro s
    rw [hin, buildIncomingFrom_isSome]
    simp [alookup_nil]
  · intro s j h
    rw [hin] at h
    rcases buildIncomingFrom_value _ _ _ _ _ h with h2 | ⟨t, p, ht, hps, hj⟩
    · rw [alookup_nil] at h2
      cases h2
    · refine ⟨{ lhs_signal := p.2
                rhs_signals :=
                  setErase (context.constraint_storage p.1).signalsSet p.2
                associated_constraint := p.1 }, ?_, hps⟩
      rw [hsa, buildSafeAssignments, List.getElem?_map]
      rw [hj, Nat.zero_add, ht]
      rfl

/-- Witness for C6 at a one-entry double-arrow list. -/
theorem claim_C6_witness :
    ∃ a, (VerificationGraph.new
      { witness := fun _ => 0
        signal_name_map := fun n => "h" ++ natToDecimal n
        tree_constraints :=
          { no_constraints := 1, initial_constraint := 0
            number_inputs := 0, number_outputs := 0, number_signals := 0
            initial_signal := 0, are_double_arrow := [(0, 5)]
            subcomponents := [] }
        field := 101
        constraint_storage := fun _ => ⟨[], [], [(5, 1), (6, 2)]⟩
        options := Options.default }).safe_assignments[0]? = some a ∧
      a.lhs_signal = 5 :=
  (claim_C6 _).2.2.2 5 0 (by decide)

lemma alookup_insertManyNodes (ks : List Nat) :
    ∀ (m : NodeMap) (v : Node) (s : Nat),
      alookup s (insertManyNodes m ks v) =
        if s ∈ ks then some v else alookup s m := by
  induction ks with
  | nil =>
    intro m v s
    simp [insertManyNodes]
  | cons k ks2 ih =>
    intro m v s
    have step : insertManyNodes m (k :: ks2) v =
        insertManyNodes (mapInsert m k v) ks2 v := rfl
    rw [step, ih, alookup_mapInsert]
    by_cases h2 : s ∈ ks2
    · rw [if_pos h2, if_pos (List.mem_cons_of_mem _ h2)]
    · rw [if_neg h2]
      by_cases hk : k = s
      · rw [if_pos hk, if_pos (List.mem_cons.mpr (Or.inl hk.symm))]
      · rw [if_neg hk, if_neg ?_]
        rw [List.mem_cons]
        rintro (rfl | hc)
        · exact hk rfl
        · exact h2 hc

lemma alookup_addSubcomponentNodes (m : NodeMap) (k : Nat) (c : SubCmpData)
    (s : Nat) :
    alookup s (addSubcomponentNodes m k c) =
      if s ∈ subOutputPorts c then some (Node.SubComponentOutputSignal k)
      else if s ∈ subInputPorts c then
        some (Node.SubComponentInputSignal c.node_id)
      else alookup s m := by
  rw [addSubcomponentNodes, alookup_insertManyNodes]
  by_cases ho : s ∈ subOutputPorts c
  · rw [if_pos ho, if_pos ho]
  · rw [if_neg ho, if_neg ho, alookup_insertManyNodes]

lemma ports_disjoint (c : SubCmpData) (s : Nat) (hin : s ∈ subInputPorts c) :
    s ∉ subOutputPorts c := by
  simp only [subInputPorts, subOutputPorts, List.mem_map,
    List.mem_range] at hin ⊢
  obtain ⟨i, hi, rfl⟩ := hin
  rintro ⟨j, hj, he⟩
  omega

lemma alookup_addAll_of_disjoint (l : List SubCmpData) :
    ∀ (i : Nat) (m : NodeMap) (s : Nat),
      (∀ c2 ∈ l, s ∉ subInputPorts c2 ∧ s ∉ subOutputPorts c2) →
      alookup s (addAllSubcomponentNodes m i l) = alookup s m := by
  induction l with
  | nil =>
    intro i m s _
    rfl
  | cons c rest ih =>
    intro i m s hd
    rw [addAllSubcomponentNodes,
      ih _ _ _ (fun c2 h2 => hd c2 (List.mem_cons_of_mem _ h2)),
      alookup_addSubcomponentNodes]
    have h0 := hd c (List.mem_cons_self _ _)
    rw [if_neg h0.2, if_neg h0.1]

lemma alookup_addAll_at (l : List SubCmpData) :
    ∀ (i : Nat) (m : NodeMap) (k : Nat) (c : SubCmpData) (s : Nat),
      l[k]? = some c →
      (∀ j c2, j ≠ k → l[j]? = some c2 →
        s ∉ subInputPorts c2 ∧ s ∉ subOutputPorts c2) →
      (s ∈ subInputPorts c →
        alookup s (addAllSubcomponentNodes m i l) =
          some (Node.SubComponentInputSignal c.node_id)) ∧
      (s ∈ subOutputPorts c →
        alookup s (addAllSubcomponentNodes m i l) =
          some (Node.SubComponentOutputSignal (i + k))) := by
  induction l with
  | nil =>
    intro i m k c s hk _
    exact absurd hk (by simp)
  | cons c0 rest ih =>
    intro i m k c s hk hd
    cases k with
    | zero =>
      simp only [List.getElem?_cons_zero, Option.some.injEq] at hk
      subst hk
      rw [addAllSubcomponentNodes]
      have hrest : ∀ c2 ∈ rest, s ∉ subInputPorts c2 ∧
          s ∉ subOutputPorts c2 := by
        intro c2 h2
        obtain ⟨j, hj⟩ := List.mem_iff_getElem?.mp h2
        exact hd (j + 1) c2 (by omega) (by simpa using hj)
      rw [alookup_addAll_of_disjoint rest _ _ _ hrest,
        alookup_addSubcomponentNodes]
      constructor
      · intro hin
        rw [if_neg (ports_disjoint c0 s hin), if_pos hin]
      · intro hout
        rw [if_pos hout, Nat.add_zero]
    | succ k2 =>
      simp only [List.getElem?_cons_succ] at hk
      rw [addAllSubcomponentNodes]
      have hd2 : ∀ j c2, j ≠ k2 → rest[j]? = some c2 →
          s ∉ subInputPorts c2 ∧ s ∉ subOutputPorts c2 :=
        fun j c2 hj hjg => hd (j + 1) c2 (by omega) (by simpa using hjg)
      have hres := ih (i + 1) (addSubcomponentNodes m i c0) k2 c s hk hd2
      refine ⟨hres.1, ?_⟩
      intro hout
      rw [hres.2 hout]
      have harith : i + 1 + k2 = i + (k2 + 1) := by omega
      rw [harith]

lemma buildSubcomponents_lookup (l : List SubCmpData) :
    ∀ (i k : Nat) (c : SubCmpData), l[k]? = some c →
      alookup (i + k) (buildSubcomponents i l) =
        some { input_signals := subInputPorts c
               output_signals := subOutputPorts c
               not_yet_fixed_inputs := subInputPorts c } := by
  induction l with
  | nil =>
    intro i k c hk
    exact absurd hk (by simp)
  | cons c0 rest ih =>
    intro i k c hk
    cases k with
    | zero =>
      simp only [List.getElem?_cons_zero, Option.some.injEq] at hk
      subst hk
      rw [buildSubcomponents, alookup_cons, if_pos (by omega)]
    | succ k2 =>
      simp only [List.getElem?_cons_succ] at hk
      rw [buildSubcomponents, alookup_cons, if_neg (by omega)]
      have hres := ih (i + 1) k2 c hk
      have harith : i + 1 + k2 = i + (k2 + 1) := by omega
      rw [harith] at hres
      exact hres

/-- C10 (amended): for a subcomponent stored under key `k` in the
subcomponents map, the output ports are tagged with `k` (the enumeration
index), while the input ports are tagged with the subcomponent's metadata
`node_id` — which need not equal `k`; the disjointness hypothesis rules out
another subcomponent overwriting the inspected port. -/
theorem claim_C10_amended (context : InputDataContextView) (k : Nat)
    (c : SubCmpData) (s : Nat)
    (hk : context.tree_constraints.subcomponents[k]? = some c)
    (hdisj : ∀ j c2, j ≠ k →
      context.tree_constraints.subcomponents[j]? = some c2 →
      s ∉ subInputPorts c2 ∧ s ∉ subOutputPorts c2) :
    (s ∈ subInputPorts c →
      alookup s (VerificationGraph.new context).nodes =
        some (Node.SubComponentInputSignal c.node_id)) ∧
    (s ∈ subOutputPorts c →
      alookup s (VerificationGraph.new context).nodes =
        some (Node.SubComponentOutputSignal k)) ∧
    alookup k (VerificationGraph.new context).subcomponents =
      some { input_signals := subInputPorts c
             output_signals := subOutputPorts c
             not_yet_fixed_inputs := subInputPorts c } := by
  have h1 := alookup_addAll_at context.tree_constraints.subcomponents 0
    (insertManyNodes
      (insertManyNodes
        (insertManyNodes [] (frameOutputs context.tree_constraints)
          Node.OutputSignal)
        (frameInputs context.tree_constraints) Node.InputSignal)
      (frameIntermediates context.tree_constraints)
      Node.IntermediateSignal)
    k c s hk hdisj
  have h2 := buildSubcomponents_lookup
    context.tree_constraints.subcomponents 0 k c hk
  rw [Nat.zero_add] at h2
  refine ⟨fun hin => h1.1 hin, fun hout => ?_, h2⟩
  have hres := h1.2 hout
  rw [Nat.zero_add] at hres
  exact hres

/-- The concrete frame exhibiting the C10 divergence: one subcomponent with
metadata `node_id = 1`, stored under enumeration key 0, with one input port
(signal 11) and one output port (signal 10). -/
def contextC10 : InputDataContextView :=
  { witness := fun _ => 0
    signal_name_map := fun n => "c" ++ natToDecimal n
    tree_constraints :=
      { no_constraints := 0, initial_constraint := 0
        number_inputs := 0, number_outputs := 0, number_signals := 0
        initial_signal := 0, are_double_arrow := []
        subcomponents :=
          [{ node_id := 1, number_inputs := 1, number_outputs := 1
             initial_signal := 10 }] }
    field := 101
    constraint_storage := fun _ => ⟨[], [], []⟩
    options := Options.default }

/-- C10 is false as stated: in `contextC10` the single subcomponent is
stored under key 0 and its output port is tagged with 0, but its input port
is tagged with the metadata `node_id` 1, not with the map key. -/
theorem claim_C10_counterexample :
    alookup 11 (VerificationGraph.new contextC10).nodes =
        some (Node.SubComponentInputSignal 1) ∧
      alookup 10 (VerificationGraph.new contextC10).nodes =
        some (Node.SubComponentOutputSignal 0) ∧
      (VerificationGraph.new contextC10).subcomponents.map Prod.fst = [0] ∧
      alookup 11 (VerificationGraph.new contextC10).nodes ≠
        some (Node.SubComponentInputSignal 0) := by
  decide

/-- Witness for the amended C10 at `contextC10`. -/
theorem claim_C10_amended_witness :
    alookup 11 (VerificationGraph.new contextC10).nodes =
      some (Node.SubComponentInputSignal 1) := by
  apply (claim_C10_amended contextC10 0
    { node_id := 1, number_inputs := 1, number_outputs := 1
      initial_signal := 10 } 11 (by decide) ?_).1 (by decide)
  intro j c2 hj hg
  cases j with
  | zero => exact absurd rfl hj
  | succ j2 =>
    have hsubs : contextC10.tree_constraints.subcomponents =
        [{ node_id := 1, number_inputs := 1, number_outputs := 1
           initial_signal := 10 }] := rfl
    rw [hsubs] at hg
    simp at hg

end VerifSpec
